import Mathlib

/-!
Shallow embedding of the LazyTortus ADS-B / Mode-S codec and tracker
(`aircraft_simulator.py`, `send_adsb.py`, `atc_debian9.py`,
`atc_army_offline.py`) together with proofs about the specified
properties of the encoders, decoders and the tracker state machine.

Conventions used throughout:
* Python integers are `Nat`/`Int`; Python floats are real numbers `ℝ`;
  `time.time()` values are rationals `ℚ`.
* A hex string is represented by its list of nibble values
  (`List Nat`, each entry `< 16`) when its length matters, or by its
  numeric value (`Nat`) when it does not.
* Slicing a `format(x, '0nb')` binary string as `s[i:j]` corresponds to
  `x / 2 ^ (n - j) % 2 ^ (j - i)` for in-range `x`.
* Python `int()` truncation toward zero on a real is `pytrunc`;
  `math.floor` is `Int.floor`.
-/

/-- Python `int()` applied to a float: truncation toward zero. -/
noncomputable def pytrunc (x : ℝ) : ℤ :=
if 0 ≤ x then ⌊x⌋ else ⌈x⌉

/-- Python `int()` applied to a rational-valued float (used for the
`seen` field of the JSON snapshot): truncation toward zero. -/
def pytruncQ (x : ℚ) : ℤ :=
if 0 ≤ x then ⌊x⌋ else ⌈x⌉

/-- Value of a list of hex nibbles, as computed by Python `int(s, 16)`. -/
def nibVal (l : List ℕ) : ℕ :=
l.foldl (fun a d => 16 * a + d) 0

/-- The 64-character ADS-B callsign charset, identical in all four
source files. -/
def adsbCharset : String :=
"#ABCDEFGHIJKLMNOPQRSTUVWXYZ##### ###############0123456789######"

/-- Lookup in a Python dict modelled as an association list. -/
def dictGet {R : Type} (m : List (ℕ × R)) (k : ℕ) : Option R :=
(m.find? (fun p => p.1 = k)).map Prod.snd

/-- `m[k] = v` on a Python dict modelled as an association list:
replace in place when the key is present, append otherwise. -/
def dictSet {R : Type} (m : List (ℕ × R)) (k : ℕ) (v : R) : List (ℕ × R) :=
if m.any (fun p => p.1 = k) then m.map (fun p => if p.1 = k then (k, v) else p)
else m ++ [(k, v)]

/-! ## Mode-S CRC (`aircraft_simulator.ADSBEncoder.crc` and
`send_adsb.ADSBEncoder.crc`)

Both sources run a loop over the first `L - 24` bits of the working
register `m` of bit-length `L`; when the tested bit is set an XOR mask
is applied.  `aircraft_simulator` uses the mask
`(0xFFFA0480900 >> 1) << (L - 25 - i)`, `send_adsb` uses
`0xFFFA0480 >> i`.  We factor the loop over an arbitrary mask
function. -/

/-- One iteration of the CRC division loop: test bit `L - 1 - i` of the
register and XOR `mask i` into it when the bit is set. -/
def crcStep (L : ℕ) (mask : ℕ → ℕ) (m i : ℕ) : ℕ :=
if m / 2 ^ (L - 1 - i) % 2 = 1 then m ^^^ mask i else m

/-- The full CRC division loop: `for i in range(L - 24)`. -/
def crcRun (L : ℕ) (mask : ℕ → ℕ) (m : ℕ) : ℕ :=
(List.range (L - 24)).foldl (crcStep L mask) m

/-- XOR mask used by `aircraft_simulator.ADSBEncoder.crc`:
`(GENERATOR >> 1) << (len(msg_bin) - 25 - i)` with
`GENERATOR = 0xFFFA0480900`. -/
def simMask (L i : ℕ) : ℕ :=
(0xFFFA0480900 / 2) * 2 ^ (L - 25 - i)

/-- XOR mask used by `send_adsb.ADSBEncoder.crc`: `generator >> i` with
`generator = 0xFFFA0480`. -/
def sendMask (i : ℕ) : ℕ :=
0xFFFA0480 / 2 ^ i

/-- `aircraft_simulator.ADSBEncoder.crc` on a message of `hexLen` hex
characters with value `msg`.  In encode mode 24 zero bits are appended
before the division; the result is the low 24 bits of the register. -/
def simCrc (hexLen : ℕ) (msg : ℕ) (encode : Bool) : ℕ :=
crcRun (if encode then 4 * hexLen + 24 else 4 * hexLen)
  (simMask (if encode then 4 * hexLen + 24 else 4 * hexLen))
  (if encode then msg * 2 ^ 24 else msg) % 2 ^ 24

/-- `send_adsb.ADSBEncoder.crc` on a message of `hexLen` hex characters
with value `msg`. -/
def sendCrc (hexLen : ℕ) (msg : ℕ) (encode : Bool) : ℕ :=
crcRun (if encode then 4 * hexLen + 24 else 4 * hexLen) sendMask
  (if encode then msg * 2 ^ 24 else msg) % 2 ^ 24

/-! ## DF17 frame assembly (bit level)

All encoders build an 88-bit body `DF(5) | CA(3) | ICAO(24) | ME(56)`
by binary-string concatenation, append the 24-bit CRC of the body and
render 28 hex characters.  For in-range field values the string
concatenation is the arithmetic sum below. -/

/-- 88-bit DF17 body: `DF=17, CA=5`, then the ICAO address and the
56-bit ME payload. -/
def bodyOf (icao me : ℕ) : ℕ :=
17 * 2 ^ 83 + 5 * 2 ^ 80 + icao * 2 ^ 56 + me

/-- 112-bit frame value: the 88-bit body followed by its
`aircraft_simulator` CRC (`msg_hex + format(crc, '06X')`). -/
def frameOfBody (body : ℕ) : ℕ :=
body * 2 ^ 24 + simCrc 22 body true

/-- ME payload of an identification message (`encode_callsign`):
`TC=4`, 3-bit category 0, then eight 6-bit character codes. -/
def identME (codes : List ℕ) : ℕ :=
codes.foldl (fun a c => a * 64 + c) (4 * 8 + 0)

/-- ME payload of an airborne position message (`encode_position`):
`TC=11`, surveillance status 0, NICsb 0, the 12-bit altitude field,
Time bit 0, CPR format bit `f`, then the two 17-bit CPR coordinates. -/
def positionME (altField f latCpr lonCpr : ℕ) : ℕ :=
11 * 2 ^ 51 + 0 * 2 ^ 49 + 0 * 2 ^ 48 + altField * 2 ^ 36 + 0 * 2 ^ 35 +
  f * 2 ^ 34 + latCpr * 2 ^ 17 + lonCpr

/-- ME payload of an airborne velocity message (`encode_velocity`):
`TC=19`, `ST=1`, intent/IFR/NUCv zero, then the signed EW and NS
velocities, `VrSrc=0`, the signed vertical rate, and zero reserved and
GNSS-difference bits (including the zero padding to 88 body bits). -/
def velocityME (ewSign ewVel nsSign nsVel vrSign vrVal : ℕ) : ℕ :=
19 * 2 ^ 51 + 1 * 2 ^ 48 + ewSign * 2 ^ 42 + ewVel * 2 ^ 32 +
  nsSign * 2 ^ 31 + nsVel * 2 ^ 21 + vrSign * 2 ^ 19 + vrVal * 2 ^ 10

/-- 12-bit altitude field as built by `aircraft_simulator`
`encode_position`: `alt_bin[:8] + '1' + alt_bin[8:11]` on the 11-bit
code `n`, i.e. the top 8 bits, the Q bit, then the bottom 3 bits. -/
def simAltField (n : ℕ) : ℕ :=
n / 8 * 16 + 8 + n % 8

/-- 12-bit altitude field as built by `send_adsb` `encode_position`:
`(top_bits << 5) | (1 << 4) | bottom_bits` with
`top_bits = (alt_code >> 4) & 0x7F`, `bottom_bits = alt_code & 0x0F`. -/
def sendAltField (n : ℕ) : ℕ :=
(n >>> 4 &&& 0x7F) <<< 5 ||| 1 <<< 4 ||| n &&& 0x0F

/-! ## Simulator-side real-valued encoders (`aircraft_simulator`) -/

/-- `aircraft_simulator.ADSBEncoder.nl`: NL zone count; the argument is
the latitude in radians.  The equator is special-cased to 59, latitudes
of magnitude at least pi/2 give 1. -/
noncomputable def simNl (lat : ℝ) : ℤ :=
if lat = 0 then 59
else if Real.pi / 2 ≤ |lat| then 1
else if 1 - (1 - Real.cos (Real.pi / (2 * 15))) / Real.cos lat ^ 2 ≤ 0 then 1
else ⌊2 * Real.pi / Real.arccos (1 - (1 - Real.cos (Real.pi / (2 * 15))) / Real.cos lat ^ 2)⌋

/-- Altitude code `int((alt + 1000) / 25)` shared by the
`encode_position` of `aircraft_simulator` and `send_adsb`. -/
noncomputable def altCode (alt : ℝ) : ℤ :=
pytrunc ((alt + 1000) / 25)

/-- 17-bit CPR latitude of `aircraft_simulator.encode_position`:
`int((yz - int(yz)) * 2**17) & (2**17 - 1)`; the Python `&` of a
(possibly negative) int with `2**17 - 1` is reduction mod `2**17`. -/
noncomputable def simLatCpr (lat : ℝ) (f : ℕ) : ℕ :=
(pytrunc ((lat / (360 / ((if f = 0 then 60 else 59 : ℕ) : ℝ)) -
    (pytrunc (lat / (360 / ((if f = 0 then 60 else 59 : ℕ) : ℝ))) : ℝ)) * 2 ^ 17) %
  (2 ^ 17 : ℤ)).toNat

/-- 17-bit CPR longitude of `aircraft_simulator.encode_position`, using
`nl` of the latitude in radians. -/
noncomputable def simLonCpr (lat lon : ℝ) (f : ℕ) : ℕ :=
(pytrunc ((lon / (360 / ((max (if f = 0 then simNl (lat * Real.pi / 180)
      else simNl (lat * Real.pi / 180) - 1) 1 : ℤ) : ℝ)) -
    (pytrunc (lon / (360 / ((max (if f = 0 then simNl (lat * Real.pi / 180)
      else simNl (lat * Real.pi / 180) - 1) 1 : ℤ) : ℝ))) : ℝ)) * 2 ^ 17) %
  (2 ^ 17 : ℤ)).toNat

/-- Character code used by `aircraft_simulator.encode_callsign`:
`charset.find(char)`, or 0 when the character is absent. -/
def charCode (c : Char) : ℕ :=
if c ∈ adsbCharset.toList then adsbCharset.toList.indexOf c else 0

/-- The eight character codes of a callsign:
`(callsign + "        ")[:8].upper()` mapped through the charset. -/
def simCallsignCodes (cs : List Char) : List ℕ :=
(((cs ++ List.replicate 8 ' ').take 8).map Char.toUpper).map charCode

/-- `aircraft_simulator.ADSBEncoder.encode_callsign` as a 112-bit frame
value. -/
def simEncodeCallsign (icao : ℕ) (cs : List Char) : ℕ :=
frameOfBody (bodyOf icao (identME (simCallsignCodes cs)))

/-- `aircraft_simulator.ADSBEncoder.encode_position` as a 112-bit frame
value (the `time_bit` argument is the CPR format bit `f`). -/
noncomputable def simEncodePosition (icao : ℕ) (lat lon alt : ℝ) (f : ℕ) : ℕ :=
frameOfBody (bodyOf icao
  (positionME (simAltField (altCode alt).toNat) f (simLatCpr lat f) (simLonCpr lat lon f)))

/-- ME payload of `aircraft_simulator.ADSBEncoder.encode_velocity`:
sign bits and magnitudes `min(int(abs(v)) + 1, 1023)` of the EW/NS
components, and the encoded vertical rate. -/
noncomputable def simVelME (speed heading vr : ℝ) : ℕ :=
velocityME
  (if 0 ≤ speed * Real.sin (heading * Real.pi / 180) then 0 else 1)
  (min ((pytrunc |speed * Real.sin (heading * Real.pi / 180)|).toNat + 1) 1023)
  (if 0 ≤ speed * Real.cos (heading * Real.pi / 180) then 0 else 1)
  (min ((pytrunc |speed * Real.cos (heading * Real.pi / 180)|).toNat + 1) 1023)
  (if 0 ≤ vr then 0 else 1)
  (if vr = 0 then 0 else min ((pytrunc (|vr| / 64)).toNat + 1) 511)

/-- `aircraft_simulator.ADSBEncoder.encode_velocity` as a 112-bit frame
value. -/
noncomputable def simEncodeVelocity (icao : ℕ) (speed heading vr : ℝ) : ℕ :=
frameOfBody (bodyOf icao (simVelME speed heading vr))

/-! ## Receiver-side decoders (`atc_debian9`, `atc_army_offline`)

The two receiver classes share identical `_decode_callsign`,
`_decode_velocity` and `_calculate_nl` methods; their
`_decode_position` methods differ and are modelled separately. -/

/-- `_calculate_nl` (identical in `atc_debian9` and
`atc_army_offline`): NL zone count from a latitude in degrees. -/
noncomputable def calculateNl (lat : ℝ) : ℤ :=
if 87 ≤ |lat| then 1
else if 1 - (1 - Real.cos (Real.pi / (2 * 15))) / Real.cos (Real.pi * |lat| / 180) ^ 2 ≤ 0 then 1
else pytrunc (2 * Real.pi / Real.arccos (1 - (1 - Real.cos (Real.pi / (2 * 15))) / Real.cos (Real.pi * |lat| / 180) ^ 2))

/-- Python `math.atan2`. -/
noncomputable def pyAtan2 (y x : ℝ) : ℝ :=
if 0 < x then Real.arctan (y / x)
else if x < 0 then (if 0 ≤ y then Real.arctan (y / x) + Real.pi else Real.arctan (y / x) - Real.pi)
else if 0 < y then Real.pi / 2
else if y < 0 then -(Real.pi / 2)
else 0

/-- Python float modulo `a % b` for positive `b`. -/
noncomputable def pymodR (a b : ℝ) : ℝ :=
a - b * ⌊a / b⌋

/-- `_decode_velocity` (identical in both receivers) on the 56-bit ME
value: extract the signed EW/NS components (`raw - 1`, negated when the
sign bit is set) and return
`(sqrt(ew^2 + ns^2), degrees(atan2(ew, ns)) % 360)`. -/
noncomputable def decodeVelocityMe (me : ℕ) : Option (ℝ × ℝ) :=
if me / 2 ^ 51 % 2 ^ 5 ≠ 19 then none
else
  some (Real.sqrt
      (((if me / 2 ^ 42 % 2 = 1 then -((me / 2 ^ 32 % 2 ^ 10 : ℕ) - 1 : ℤ)
          else (me / 2 ^ 32 % 2 ^ 10 : ℕ) - 1 : ℤ) : ℝ) ^ 2 +
        ((if me / 2 ^ 31 % 2 = 1 then -((me / 2 ^ 21 % 2 ^ 10 : ℕ) - 1 : ℤ)
          else (me / 2 ^ 21 % 2 ^ 10 : ℕ) - 1 : ℤ) : ℝ) ^ 2),
    pymodR (pyAtan2
        ((if me / 2 ^ 42 % 2 = 1 then -((me / 2 ^ 32 % 2 ^ 10 : ℕ) - 1 : ℤ)
          else (me / 2 ^ 32 % 2 ^ 10 : ℕ) - 1 : ℤ) : ℝ)
        ((if me / 2 ^ 31 % 2 = 1 then -((me / 2 ^ 21 % 2 ^ 10 : ℕ) - 1 : ℤ)
          else (me / 2 ^ 21 % 2 ^ 10 : ℕ) - 1 : ℤ) : ℝ) * 180 / Real.pi) 360)

/-- The Q-bit altitude decoding of `atc_debian9._decode_position` on
the 12-bit altitude field: when the bit at position 4 is set, the
altitude code is `top7 << 4 | bottom4` and the altitude
`alt_code * 25 - 1000`; otherwise the altitude is unknown. -/
def d9DecodeAltField (altInt : ℕ) : Option ℤ :=
if altInt >>> 4 &&& 1 = 1 then
  some (((altInt >>> 5 &&& 0x7F) <<< 4 ||| altInt &&& 0x0F : ℕ) * 25 - 1000)
else none

/-- The altitude decoding of `atc_army_offline._decode_position`:
as in `atc_debian9` but a cleared Q bit yields altitude 0. -/
def armyDecodeAltField (altInt : ℕ) : ℤ :=
if altInt >>> 4 &&& 1 = 1 then
  ((altInt >>> 5 &&& 0x7F) <<< 4 ||| altInt &&& 0x0F : ℕ) * 25 - 1000
else 0

/-- Closed form of the longitude normalisation loops
`while lon >= 180: lon -= 360` / `while lon < -180: lon += 360`:
the unique representative of `x` modulo 360 in `[-180, 180)`. -/
noncomputable def normLon (x : ℝ) : ℝ :=
x - 360 * ⌊(x + 180) / 360⌋

/-! ## Tracker records and per-message state machines -/

/-- A received aircraft of `atc_debian9` (`received_aircraft[icao]`):
all data fields start unknown, CPR fragments carry no timestamps. -/
structure D9Rec where
  icao : ℕ
  callsign : Option (List Char)
  lat : Option ℝ
  lon : Option ℝ
  altitude : Option ℤ
  speed : Option ℝ
  heading : Option ℝ
  kind : ℕ
  lastSeen : ℚ
  latEvenCpr : Option ℕ
  lonEvenCpr : Option ℕ
  latOddCpr : Option ℕ
  lonOddCpr : Option ℕ

/-- Fresh `atc_debian9` entry (`type` rendered as the tag 0 for
unknown). -/
def d9NewRec (icao : ℕ) (t : ℚ) : D9Rec :=
⟨icao, none, none, none, none, none, none, 0, t, none, none, none, none⟩

/-- A received aircraft of `atc_army_offline`: callsign starts as the
empty string, altitude/speed/heading start as 0, and the CPR fragments
carry reception timestamps. -/
structure ArmyRec where
  icao : ℕ
  callsign : List Char
  lat : Option ℝ
  lon : Option ℝ
  altitude : ℤ
  speed : ℝ
  heading : ℝ
  kind : ℕ
  lastSeen : ℚ
  positionEven : Option (ℕ × ℕ × ℚ)
  positionOdd : Option (ℕ × ℕ × ℚ)

/-- Fresh `atc_army_offline` entry (`type` rendered as the tag 1 for
civilian). -/
def armyNewRec (icao : ℕ) (t : ℚ) : ArmyRec :=
⟨icao, [], none, none, 0, 0, 0, 1, t, none, none⟩

/-- `_decode_callsign` (identical in both receivers): the raw eight
characters extracted from the message nibbles. -/
def decodeCallsignChars (msg : List ℕ) : List Char :=
(List.range 8).foldl (fun acc i =>
  if i * 6 / 4 + 10 + 2 < msg.length then
    acc ++ [adsbCharset.toList.getD
      (nibVal ((msg.drop (i * 6 / 4 + 10)).take 2) >>> (2 - (i * 6 + 40) % 4) &&& 0x3F) '#']
  else acc) []

/-- Python `str.strip()` on the space-padded callsign. -/
def pyStrip (l : List Char) : List Char :=
((l.dropWhile (· = ' ')).reverse.dropWhile (· = ' ')).reverse

/-- `_decode_callsign` (identical in both receivers):
`callsign.strip().replace('#', '')`. -/
def decodeCallsign (msg : List ℕ) : Option (List Char) :=
some ((pyStrip (decodeCallsignChars msg)).filter (· ≠ '#'))

/-- `atc_debian9._decode_position` on the 56-bit ME value, acting on a
tracker record: store the CPR fragment under the parity read from ME
bit index 20 from the left (`me_bin[20]`), and when all four fragments
are present run the global CPR decode (no freshness check). -/
noncomputable def d9DecodePositionMe (me : ℕ) (ac : D9Rec) : D9Rec × (Option ℝ × Option ℝ × Option ℤ) :=
let altitude := d9DecodeAltField (me / 2 ^ 36 % 2 ^ 12)
let timeBit := me / 2 ^ 35 % 2
let latCpr := me / 2 ^ 17 % 2 ^ 17
let lonCpr := me % 2 ^ 17
let ac1 := if timeBit = 0 then { ac with latEvenCpr := some latCpr, lonEvenCpr := some lonCpr }
  else { ac with latOddCpr := some latCpr, lonOddCpr := some lonCpr }
match ac1.latEvenCpr, ac1.lonEvenCpr, ac1.latOddCpr, ac1.lonOddCpr with
| some latE, some lonE, some latO, some lonO =>
  let j : ℤ := pytrunc (((59 * (latE : ℤ) - 60 * (latO : ℤ) : ℤ) : ℝ) / 131072 + 1 / 2)
  let latEven0 : ℝ := (360 / 60 : ℝ) * (((j % 60 : ℤ) : ℝ) + (latE : ℝ) / 131072)
  let latOdd0 : ℝ := (360 / 59 : ℝ) * (((j % 59 : ℤ) : ℝ) + (latO : ℝ) / 131072)
  let latEven := if 270 ≤ latEven0 then latEven0 - 360 else latEven0
  let latOdd := if 270 ≤ latOdd0 then latOdd0 - 360 else latOdd0
  let lat := if timeBit = 0 then latEven else latOdd
  let nl := calculateNl lat
  let ni : ℤ := if timeBit = 0 then max nl 1 else max (nl - 1) 1
  let m : ℤ := ⌊(((lonE : ℤ) * (nl - 1) - (lonO : ℤ) * nl : ℤ) : ℝ) / 131072 + 1 / 2⌋
  let lon := normLon ((360 / (ni : ℝ)) *
    ((m : ℝ) + ((if timeBit = 0 then lonE else lonO : ℕ) : ℝ) / 131072))
  if -90 ≤ lat ∧ lat ≤ 90 ∧ -180 ≤ lon ∧ lon ≤ 180 then (ac1, (some lat, some lon, altitude))
  else (ac1, (none, none, altitude))
| _, _, _, _ => (ac1, (none, none, altitude))

/-- `atc_army_offline._decode_position` on the 56-bit ME value: store
the CPR fragment with its reception time under the parity read from ME
bit index 21 from the left (`me_bin[21]`), reject pairs of fragments
whose times differ by more than 10 seconds, pick the latitude of the
newer fragment, and decode the longitude accordingly. -/
noncomputable def armyDecodePositionMe (me : ℕ) (t : ℚ) (ac : ArmyRec) : ArmyRec × (Option ℝ × Option ℝ × ℤ) :=
let altitude := armyDecodeAltField (me / 2 ^ 36 % 2 ^ 12)
let timeBit := me / 2 ^ 34 % 2
let latCpr := me / 2 ^ 17 % 2 ^ 17
let lonCpr := me % 2 ^ 17
let ac1 := if timeBit ≠ 0 then { ac with positionOdd := some (latCpr, lonCpr, t) }
  else { ac with positionEven := some (latCpr, lonCpr, t) }
match ac1.positionEven, ac1.positionOdd with
| some (latE, lonE, tE), some (latO, lonO, tO) =>
  if 10 < |tE - tO| then (ac1, (none, none, altitude))
  else
    let j : ℤ := pytrunc (((59 * (latE : ℤ) - 60 * (latO : ℤ) : ℤ) : ℝ) / 131072 + 1 / 2)
    let latEven0 : ℝ := (360 / 60 : ℝ) * (((j % 60 : ℤ) : ℝ) + (latE : ℝ) / 131072)
    let latOdd0 : ℝ := (360 / 59 : ℝ) * (((j % 59 : ℤ) : ℝ) + (latO : ℝ) / 131072)
    let latEven := if 270 ≤ latEven0 then latEven0 - 360 else latEven0
    let latOdd := if 270 ≤ latOdd0 then latOdd0 - 360 else latOdd0
    let useEven := tO < tE
    let lat := if useEven then latEven else latOdd
    let nl := calculateNl lat
    let ni : ℤ := if useEven then max nl 1 else max (nl - 1) 1
    let m : ℤ := ⌊(((lonE : ℤ) * (nl - 1) - (lonO : ℤ) * nl : ℤ) : ℝ) / 131072 + 1 / 2⌋
    let lon0 := normLon ((360 / (ni : ℝ)) *
      ((m : ℝ) + ((if useEven then lonE else lonO : ℕ) : ℝ) / 131072))
    let lon1 := if 180 ≤ lon0 then lon0 - 360 else lon0
    let lon := if lon1 < -180 then lon1 + 360 else lon1
    if -90 ≤ lat ∧ lat ≤ 90 ∧ -180 ≤ lon ∧ lon ≤ 180 then (ac1, (some lat, some lon, altitude))
    else (ac1, (none, none, altitude))
| _, _ => (ac1, (none, none, altitude))

/-- `atc_debian9.ADSBReceiver._process_message` on a frame given as a
list of 28 hex nibbles: insert or refresh the aircraft entry, then
dispatch on the type code.  No downlink-format or CRC check is made. -/
noncomputable def d9ProcessMessage (st : List (ℕ × D9Rec)) (msg : List ℕ) (t : ℚ) : List (ℕ × D9Rec) :=
let icao := nibVal ((msg.drop 2).take 6)
let ac1 := { (dictGet st icao).getD (d9NewRec icao t) with lastSeen := t }
let me := nibVal ((msg.drop 8).take 14)
let tc := me / 2 ^ 51 % 2 ^ 5
let ac2 :=
  if 1 ≤ tc ∧ tc ≤ 4 then
    match decodeCallsign msg with
    | some cs => if cs ≠ [] then { ac1 with callsign := some cs } else ac1
    | none => ac1
  else if 9 ≤ tc ∧ tc ≤ 18 then
    let r := d9DecodePositionMe me ac1
    let ac3 := if r.2.1.isSome ∧ r.2.2.1.isSome then { r.1 with lat := r.2.1, lon := r.2.2.1 } else r.1
    if r.2.2.2.isSome then { ac3 with altitude := r.2.2.2 } else ac3
  else if tc = 19 then
    match decodeVelocityMe me with
    | some sh => { ac1 with speed := some sh.1, heading := some sh.2 }
    | none => ac1
  else ac1
dictSet st icao ac2

/-- The frame filter of `atc_debian9._handle_client`: only AVR lines
whose hex payload has exactly 28 characters are processed. -/
noncomputable def d9HandleFrame (st : List (ℕ × D9Rec)) (msg : List ℕ) (t : ℚ) : List (ℕ × D9Rec) :=
if msg.length = 28 then d9ProcessMessage st msg t else st

/-- `atc_army_offline.ADSBReceiver._process_message` on a frame given
as a list of 28 hex nibbles: frames of wrong length or with a downlink
format other than 17 are dropped; any surviving frame inserts or
refreshes the aircraft entry before the type-code dispatch.  No CRC
check is made. -/
noncomputable def armyProcessMessage (st : List (ℕ × ArmyRec)) (msg : List ℕ) (t : ℚ) : List (ℕ × ArmyRec) :=
if msg.length ≠ 28 then st
else if nibVal (msg.take 2) / 8 ≠ 17 then st
else
  let icao := nibVal ((msg.drop 2).take 6)
  let tc := nibVal ((msg.drop 8).take 2) / 8
  let ac1 := { (dictGet st icao).getD (armyNewRec icao t) with lastSeen := t }
  let me := nibVal ((msg.drop 8).take 14)
  let ac2 :=
    if 1 ≤ tc ∧ tc ≤ 4 then
      match decodeCallsign msg with
      | some cs => if cs ≠ [] then { ac1 with callsign := cs } else ac1
      | none => ac1
    else if 9 ≤ tc ∧ tc ≤ 18 then
      let r := armyDecodePositionMe me t ac1
      if r.2.1.isSome ∧ r.2.2.1.isSome then
        { r.1 with lat := r.2.1, lon := r.2.2.1, altitude := r.2.2.2 } else r.1
    else if tc = 19 then
      match decodeVelocityMe me with
      | some sh => { ac1 with speed := sh.1, heading := sh.2 }
      | none => ac1
    else ac1
  dictSet st icao ac2

/-! ## Wire framing: Beast encoding and the inbound parser -/

/-- Beast byte-stuffing of `BeastEncoder.encode_message`: every `0x1A`
is emitted as `0x1A 0x1A`. -/
def escapeBytes (l : List ℕ) : List ℕ :=
(l.map (fun b => if b = 0x1A then [0x1A, b] else [b])).flatten

/-- `aircraft_simulator.BeastEncoder.encode_message` with the timestamp
bytes and signal level as parameters: leading `0x1A`, the type byte
(`0x32` for 7-byte, `0x33` for 14-byte payloads, error otherwise), then
the escaped timestamp, signal and payload bytes. -/
def beastEncodeMessage (ts : List ℕ) (sig : ℕ) (payload : List ℕ) : Option (List ℕ) :=
if payload.length = 7 then
  some (0x1A :: 0x32 :: (escapeBytes ts ++ escapeBytes [sig] ++ escapeBytes payload))
else if payload.length = 14 then
  some (0x1A :: 0x33 :: (escapeBytes ts ++ escapeBytes [sig] ++ escapeBytes payload))
else none

/-- Python `bytes.strip()` whitespace set, as used on AVR hex payloads. -/
def isPyWhitespace (b : ℕ) : Bool :=
b = 32 ∨ b = 9 ∨ b = 10 ∨ b = 13

/-- `strip()` on a byte string. -/
def pyStripBytes (l : List ℕ) : List ℕ :=
((l.dropWhile isPyWhitespace).reverse.dropWhile isPyWhitespace).reverse

/-- The AVR loop of `atc_army_offline._handle_client`: while both `*`
and `;` occur in the buffer, cut out the bytes between the first `*`
and the following `;`, strip them, and collect non-empty results;
return the collected messages and the remaining buffer. -/
def avrLoop (buffer : List ℕ) : List (List ℕ) × List ℕ :=
if h : 42 ∈ buffer ∧ 59 ∈ buffer then
  if h2 : 59 ∈ buffer.drop (buffer.indexOf 42) then
    let s := buffer.indexOf 42
    let e := s + (buffer.drop s).indexOf 59
    let msg := pyStripBytes ((buffer.drop (s + 1)).take (e - s - 1))
    let r := avrLoop (buffer.drop (e + 1))
    (if msg ≠ [] then msg :: r.1 else r.1, r.2)
  else ([], buffer)
else ([], buffer)
termination_by buffer.length
decreasing_by
  simp only [List.length_drop]
  have hpos : 0 < buffer.length := List.length_pos.mpr (List.ne_nil_of_mem h.1)
  omega

/-- The Beast loop of `atc_army_offline._handle_client`: while at least
23 bytes remain, on `0x1A 0x33` take buffer bytes 9 to 22 as the
Mode-S frame and drop 23 bytes; otherwise advance one byte.  No
unescaping is performed. -/
def beastLoop (buffer : List ℕ) : List (List ℕ) × List ℕ :=
if hlen : 23 ≤ buffer.length then
  if buffer.headD 0 = 0x1A then
    if buffer.getD 1 0 = 0x33 then
      let r := beastLoop (buffer.drop 23)
      ((buffer.drop 9).take 14 :: r.1, r.2)
    else beastLoop (buffer.drop 1)
  else beastLoop (buffer.drop 1)
else ([], buffer)
termination_by buffer.length
decreasing_by
  all_goals simp only [List.length_drop]
  all_goals omega

/-- One `recv` round of `atc_army_offline._handle_client`: run the AVR
loop, then the Beast loop, then bound the buffer (keep the last 1000
bytes when it exceeds 10000).  Returns the AVR messages (hex
characters), the Beast messages (raw frame bytes) and the leftover
buffer. -/
def armyHandleChunk (buffer : List ℕ) : List (List ℕ) × List (List ℕ) × List ℕ :=
let a := avrLoop buffer
let b := beastLoop a.2
(a.1, b.1, if 10000 < b.2.length then b.2.drop (b.2.length - 1000) else b.2)

/-! ## The JSON view endpoint (`serve_aircraft_json`) -/

/-- Source tag of a snapshot entry. -/
inductive MsgSource where
  | simulated : MsgSource
  | adsb : MsgSource
deriving DecidableEq

/-- Hex rendering of a 24-bit ICAO address as six characters. -/
def icaoHexChars (n : ℕ) : List Char :=
(List.range 6).map (fun i => "0123456789ABCDEF".toList.getD (n / 16 ^ (5 - i) % 16) '0')

/-- One entry of the `/data/aircraft.json` snapshot; unknown numeric
fields serialise as `null` (`none`). -/
structure ViewEntry where
  hex : ℕ
  flight : List Char
  lat : Option ℝ
  lon : Option ℝ
  altitude : Option ℤ
  track : Option ℝ
  speed : Option ℝ
  seen : ℤ
  source : MsgSource

/-- The received-aircraft part of
`atc_army_offline.WebHandler.serve_aircraft_json`: delete entries with
`now - last_seen > 60`, then emit an entry for every remaining aircraft
whose latitude and longitude are both known.  Returns the pruned map
and the emitted entries. -/
def armyServeAdsb (now : ℚ) (recv : List (ℕ × ArmyRec)) : List (ℕ × ArmyRec) × List ViewEntry :=
let recv2 := recv.filter (fun p => ¬ 60 < now - p.2.lastSeen)
(recv2, recv2.filterMap (fun p =>
  if p.2.lat.isSome ∧ p.2.lon.isSome then
    some ⟨p.2.icao, if p.2.callsign ≠ [] then p.2.callsign else icaoHexChars p.2.icao,
      p.2.lat, p.2.lon, some p.2.altitude, some p.2.heading, some p.2.speed,
      pytruncQ (now - p.2.lastSeen), MsgSource.adsb⟩
  else none))

/-- The received-aircraft part of
`atc_debian9.WebHandler.serve_aircraft_json`: as for the army variant
but with the 30-second timeout and optional data fields. -/
def d9ServeAdsb (now : ℚ) (recv : List (ℕ × D9Rec)) : List (ℕ × D9Rec) × List ViewEntry :=
let recv2 := recv.filter (fun p => ¬ 30 < now - p.2.lastSeen)
(recv2, recv2.filterMap (fun p =>
  if p.2.lat.isSome ∧ p.2.lon.isSome then
    some ⟨p.2.icao,
      match p.2.callsign with
      | some cs => if cs ≠ [] then cs else icaoHexChars p.2.icao
      | none => icaoHexChars p.2.icao,
      p.2.lat, p.2.lon, p.2.altitude, p.2.heading, p.2.speed,
      pytruncQ (now - p.2.lastSeen), MsgSource.adsb⟩
  else none))

/-- Full `atc_army_offline` snapshot: the simulated aircraft (whose
kinematic values are abstracted as precomputed entries, with `seen = 0`
and source `simulated` as in the source) followed by the received
aircraft. -/
def armyServeAircraftJson (sims : List ViewEntry) (now : ℚ) (recv : List (ℕ × ArmyRec)) : List ViewEntry :=
sims.map (fun e => { e with seen := 0, source := MsgSource.simulated }) ++ (armyServeAdsb now recv).2

/-- Full `atc_debian9` snapshot, as for the army variant. -/
def d9ServeAircraftJson (sims : List ViewEntry) (now : ℚ) (recv : List (ℕ × D9Rec)) : List ViewEntry :=
sims.map (fun e => { e with seen := 0, source := MsgSource.simulated }) ++ (d9ServeAdsb now recv).2

/-! ## Concrete frames used in the analyses -/

/-- An even-parity airborne position frame (`DF=17`, ICAO `000001`,
`TC=11`, all CPR bits zero) as hex nibbles. -/
def c7FrameEven : List ℕ :=
[8, 13, 0, 0, 0, 0, 0, 1, 5, 8, 0, 0, 0, 0, 0, 0, 0, 0, 0, 0, 0, 0, 0, 0, 0, 0, 0, 0]

/-- The same frame with the bit read by the `atc_debian9` position
decoder (`me_bin[20]`) set, making it an odd frame for that decoder. -/
def c7FrameOdd : List ℕ :=
[8, 13, 0, 0, 0, 0, 0, 1, 5, 8, 0, 0, 0, 8, 0, 0, 0, 0, 0, 0, 0, 0, 0, 0, 0, 0, 0, 0]

/-- A DF17 frame with the unassigned type code 5 as hex nibbles. -/
def c9Frame : List ℕ :=
[8, 13, 0, 0, 0, 0, 0, 1, 2, 8, 0, 0, 0, 0, 0, 0, 0, 0, 0, 0, 0, 0, 0, 0, 0, 0, 0, 0]

/-- A 14-byte Mode-S frame whose byte at offset 4 is `0x1A`. -/
def c4Payload : List ℕ :=
[0x8D, 0x48, 0x40, 0xD6, 0x1A, 0x2C, 0xC3, 0x71, 0xC3, 0x2C, 0xE0, 0x57, 0x60, 0x98]

/-! ## CRC: XOR-linearity of the division loop and the zero residue -/

/-- Adding a value below `2 ^ n` to a multiple of `2 ^ n` is an XOR. -/
theorem mul_two_pow_add_eq_xor (a c n : ℕ) (hc : c < 2 ^ n) :
    a * 2 ^ n + c = a * 2 ^ n ^^^ c := by
  apply Nat.eq_of_testBit_eq
  intro i
  rw [Nat.testBit_xor]
  rcases lt_or_le i n with hi | hi
  · have hrw : ∀ d : ℕ, (a * 2 ^ n + d) / 2 ^ i % 2 = d / 2 ^ i % 2 := by
      intro d
      have h1 : a * 2 ^ n + d = 2 ^ i * (2 * (a * 2 ^ (n - i - 1))) + d := by
        have hsplit : (2 : ℕ) ^ n = 2 ^ i * (2 ^ (n - i - 1) * 2) := by
          rw [← pow_succ, ← pow_add]
          congr 1
          omega
        rw [hsplit]
        ring
      rw [h1, Nat.mul_add_div (Nat.two_pow_pos i), Nat.add_comm, Nat.add_mul_mod_self_left]
    have h0 : (a * 2 ^ n).testBit i = false := by
      have := hrw 0
      simp only [Nat.add_zero, Nat.zero_div, Nat.zero_mod] at this
      simp [Nat.testBit_to_div_mod, this]
    rw [h0, Bool.false_xor]
    simp only [Nat.testBit_to_div_mod]
    rw [hrw c]
  · have hlow : c / 2 ^ n = 0 := Nat.div_eq_of_lt hc
    have hdiv : ∀ d : ℕ, d < 2 ^ n → (a * 2 ^ n + d) / 2 ^ i = a / 2 ^ (i - n) := by
      intro d hd
      have hsplit : (2 : ℕ) ^ i = 2 ^ n * 2 ^ (i - n) := by
        rw [← pow_add]
        congr 1
        omega
      rw [hsplit, ← Nat.div_div_eq_div_mul, Nat.mul_comm a, Nat.mul_add_div (Nat.two_pow_pos n),
        Nat.div_eq_of_lt hd, Nat.add_zero]
    have hcbit : c.testBit i = false :=
      Nat.testBit_lt_two_pow (lt_of_lt_of_le hc (Nat.pow_le_pow_right (by norm_num) hi))
    rw [hcbit, Bool.xor_false]
    simp only [Nat.testBit_to_div_mod]
    rw [hdiv c hc]
    have := hdiv 0 (Nat.two_pow_pos n)
    simp only [Nat.add_zero] at this
    rw [this]

/-- Reduction mod `2 ^ n` distributes over XOR. -/
theorem xor_mod_two_pow (a b n : ℕ) : (a ^^^ b) % 2 ^ n = a % 2 ^ n ^^^ b % 2 ^ n := by
  apply Nat.eq_of_testBit_eq
  intro i
  simp [Nat.testBit_mod_two_pow, Nat.testBit_xor, Bool.and_xor_distrib_left]

/-- One CRC division step commutes with XOR by a constant whose bits
lie strictly below every tested bit position. -/
theorem crcStep_xor (L : ℕ) (mask : ℕ → ℕ) (m c i : ℕ) (hc : c < 2 ^ 24)
    (hi : 24 ≤ L - 1 - i) : crcStep L mask (m ^^^ c) i = crcStep L mask m i ^^^ c := by
  have hcbit : c.testBit (L - 1 - i) = false :=
    Nat.testBit_lt_two_pow (lt_of_lt_of_le hc (Nat.pow_le_pow_right (by norm_num) hi))
  have ht : (m ^^^ c).testBit (L - 1 - i) = m.testBit (L - 1 - i) := by
    rw [Nat.testBit_xor, hcbit, Bool.xor_false]
  rw [Nat.testBit_to_div_mod, Nat.testBit_to_div_mod] at ht
  have hcond : ((m ^^^ c) / 2 ^ (L - 1 - i) % 2 = 1) ↔ (m / 2 ^ (L - 1 - i) % 2 = 1) :=
    decide_eq_decide.mp ht
  unfold crcStep
  by_cases hb : m / 2 ^ (L - 1 - i) % 2 = 1
  · rw [if_pos (hcond.mpr hb), if_pos hb, Nat.xor_assoc, Nat.xor_comm c, ← Nat.xor_assoc]
  · rw [if_neg (fun hh => hb (hcond.mp hh)), if_neg hb]

/-- The CRC division loop commutes with XOR by a constant below
`2 ^ 24` as long as all tested bit positions are at least 24. -/
theorem foldl_crcStep_xor (L : ℕ) (mask : ℕ → ℕ) (c : ℕ) (hc : c < 2 ^ 24) :
    ∀ (l : List ℕ) (m : ℕ), (∀ i ∈ l, 24 ≤ L - 1 - i) →
      l.foldl (crcStep L mask) (m ^^^ c) = l.foldl (crcStep L mask) m ^^^ c := by
  intro l
  induction l with
  | nil => intro m _; rfl
  | cons i l ih =>
    intro m hl
    simp only [List.foldl_cons]
    rw [crcStep_xor L mask m c i hc (hl i (List.mem_cons_self i l))]
    exact ih _ (fun j hj => hl j (List.mem_cons_of_mem i hj))

/-- Zero residue of the generic CRC division loop on a 112-bit frame
built as an 88-bit body followed by its own 24-bit CRC. -/
theorem crcRun_zero_residue (mask : ℕ → ℕ) (body : ℕ) :
    crcRun 112 mask (body * 2 ^ 24 + crcRun 112 mask (body * 2 ^ 24) % 2 ^ 24) % 2 ^ 24 = 0 := by
  set c := crcRun 112 mask (body * 2 ^ 24) % 2 ^ 24 with hcdef
  have hclt : c < 2 ^ 24 := Nat.mod_lt _ (by norm_num)
  rw [mul_two_pow_add_eq_xor _ _ _ hclt]
  unfold crcRun
  have hrange : ∀ i ∈ List.range (112 - 24), 24 ≤ 112 - 1 - i := by
    intro i hi
    have := List.mem_range.mp hi
    omega
  rw [foldl_crcStep_xor 112 mask c hclt (List.range (112 - 24)) (body * 2 ^ 24) hrange,
    xor_mod_two_pow]
  have hcc : c % 2 ^ 24 = c := Nat.mod_eq_of_lt hclt
  rw [hcc]
  have : (List.range (112 - 24)).foldl (crcStep 112 mask) (body * 2 ^ 24) % 2 ^ 24 = c := by
    rw [hcdef]
    rfl
  rw [this, Nat.xor_self]

/-- Folding 6-bit codes multiplies the accumulator bound by 64 per
code. -/
theorem foldl64_lt : ∀ (l : List ℕ) (a A : ℕ), (∀ c ∈ l, c < 64) → a < A →
    l.foldl (fun x c => x * 64 + c) a < A * 64 ^ l.length := by
  intro l
  induction l with
  | nil => intro a A _ ha; simpa using ha
  | cons c l ih =>
    intro a A hl ha
    simp only [List.foldl_cons, List.length_cons]
    have h1 : a * 64 + c < A * 64 := by
      have hc : c < 64 := hl c (List.mem_cons_self c l)
      have : a + 1 ≤ A := ha
      nlinarith
    have := ih (a * 64 + c) (A * 64) (fun d hd => hl d (List.mem_cons_of_mem c hd)) h1
    calc List.foldl (fun x c => x * 64 + c) (a * 64 + c) l < A * 64 * 64 ^ l.length := this
    _ = A * 64 ^ (l.length + 1) := by ring

/-- Every character code produced by the simulator callsign encoder is
a 6-bit value. -/
theorem charCode_lt (c : Char) : charCode c < 64 := by
  unfold charCode
  split
  · rename_i hmem
    have h1 : adsbCharset.toList.indexOf c < adsbCharset.toList.length :=
      List.indexOf_lt_length.mpr hmem
    have h2 : adsbCharset.toList.length = 64 := by decide
    omega
  · norm_num

/-- The identification ME payload fits in 56 bits. -/
theorem identME_lt (cs : List Char) : identME (simCallsignCodes cs) < 2 ^ 56 := by
  have hlen : (simCallsignCodes cs).length = 8 := by
    unfold simCallsignCodes
    simp only [List.length_map, List.length_take, List.length_append, List.length_replicate]
    omega
  have hcodes : ∀ k ∈ simCallsignCodes cs, k < 64 := by
    intro k hk
    unfold simCallsignCodes at hk
    rcases List.mem_map.mp hk with ⟨d, _, rfl⟩
    exact charCode_lt d
  have := foldl64_lt (simCallsignCodes cs) (4 * 8 + 0) 33 hcodes (by norm_num)
  rw [hlen] at this
  unfold identME
  calc (simCallsignCodes cs).foldl (fun x c => x * 64 + c) (4 * 8 + 0) < 33 * 64 ^ 8 := this
  _ ≤ 2 ^ 56 := by norm_num

/-- The position ME payload fits in 56 bits for in-range fields. -/
theorem positionME_lt (altField f latCpr lonCpr : ℕ) (ha : altField < 2 ^ 12) (hf : f < 2)
    (hlat : latCpr < 2 ^ 17) (hlon : lonCpr < 2 ^ 17) :
    positionME altField f latCpr lonCpr < 2 ^ 56 := by
  unfold positionME
  norm_num at ha hlat hlon ⊢
  omega

/-- The velocity ME payload fits in 56 bits for in-range fields. -/
theorem velocityME_lt (ewSign ewVel nsSign nsVel vrSign vrVal : ℕ) (h1 : ewSign < 2)
    (h2 : ewVel < 2 ^ 10) (h3 : nsSign < 2) (h4 : nsVel < 2 ^ 10) (h5 : vrSign < 2)
    (h6 : vrVal < 2 ^ 9) : velocityME ewSign ewVel nsSign nsVel vrSign vrVal < 2 ^ 56 := by
  unfold velocityME
  norm_num at h2 h4 h6 ⊢
  omega

/-- The DF17 body fits in 88 bits for in-range fields. -/
theorem bodyOf_lt (icao me : ℕ) (hicao : icao < 2 ^ 24) (hme : me < 2 ^ 56) :
    bodyOf icao me < 2 ^ 88 := by
  unfold bodyOf
  norm_num at hicao hme ⊢
  omega

/-- The simulator altitude field is a 12-bit value for 11-bit codes. -/
theorem simAltField_lt (n : ℕ) (hn : n < 2 ^ 11) : simAltField n < 2 ^ 12 := by
  unfold simAltField
  omega

/-- The masked CPR coordinates of the simulator are 17-bit values. -/
theorem simLatCpr_lt (lat : ℝ) (f : ℕ) : simLatCpr lat f < 2 ^ 17 := by
  unfold simLatCpr
  have h1 := Int.emod_nonneg (pytrunc ((lat / (360 / ((if f = 0 then 60 else 59 : ℕ) : ℝ)) -
    (pytrunc (lat / (360 / ((if f = 0 then 60 else 59 : ℕ) : ℝ))) : ℝ)) * 2 ^ 17))
    (show (2 ^ 17 : ℤ) ≠ 0 by norm_num)
  have h2 := Int.emod_lt_of_pos (pytrunc ((lat / (360 / ((if f = 0 then 60 else 59 : ℕ) : ℝ)) -
    (pytrunc (lat / (360 / ((if f = 0 then 60 else 59 : ℕ) : ℝ))) : ℝ)) * 2 ^ 17))
    (show (0 : ℤ) < 2 ^ 17 by norm_num)
  omega

/-- The masked CPR longitude of the simulator is a 17-bit value. -/
theorem simLonCpr_lt (lat lon : ℝ) (f : ℕ) : simLonCpr lat lon f < 2 ^ 17 := by
  unfold simLonCpr
  have h1 := Int.emod_nonneg (pytrunc ((lon / (360 / ((max (if f = 0 then simNl (lat * Real.pi / 180)
      else simNl (lat * Real.pi / 180) - 1) 1 : ℤ) : ℝ)) -
    (pytrunc (lon / (360 / ((max (if f = 0 then simNl (lat * Real.pi / 180)
      else simNl (lat * Real.pi / 180) - 1) 1 : ℤ) : ℝ))) : ℝ)) * 2 ^ 17))
    (show (2 ^ 17 : ℤ) ≠ 0 by norm_num)
  have h2 := Int.emod_lt_of_pos (pytrunc ((lon / (360 / ((max (if f = 0 then simNl (lat * Real.pi / 180)
      else simNl (lat * Real.pi / 180) - 1) 1 : ℤ) : ℝ)) -
    (pytrunc (lon / (360 / ((max (if f = 0 then simNl (lat * Real.pi / 180)
      else simNl (lat * Real.pi / 180) - 1) 1 : ℤ) : ℝ))) : ℝ)) * 2 ^ 17))
    (show (0 : ℤ) < 2 ^ 17 by norm_num)
  omega

/-- The altitude code is an 11-bit value on the claim's domain. -/
theorem altCode_mem (alt : ℝ) (h0 : -1000 ≤ alt) (h1 : alt ≤ 50175) :
    0 ≤ altCode alt ∧ altCode alt < 2 ^ 11 := by
  unfold altCode pytrunc
  have hx0 : (0 : ℝ) ≤ (alt + 1000) / 25 := by linarith
  rw [if_pos hx0]
  constructor
  · exact Int.floor_nonneg.mpr hx0
  · have hx1 : (alt + 1000) / 25 < 2 ^ 11 := by norm_num; linarith
    exact Int.floor_lt.mpr (by push_cast; linarith)

/-- Verify-mode CRC of a frame built from a body and its encode-mode
CRC is zero (`aircraft_simulator` CRC). -/
theorem simCrc_verify_frame (body : ℕ) : simCrc 28 (frameOfBody body) false = 0 := by
  unfold simCrc frameOfBody
  norm_num
  exact crcRun_zero_residue (simMask 112) body

/-- Verify-mode CRC of a frame built from a body and its encode-mode
CRC is zero (`send_adsb` CRC). -/
theorem sendCrc_verify_frame (body : ℕ) :
    sendCrc 28 (body * 2 ^ 24 + sendCrc 22 body true) false = 0 := by
  unfold sendCrc
  norm_num
  exact crcRun_zero_residue sendMask body

/-- C1: Zero residue of the Mode-S CRC: for every frame produced by the
encoders (identification, airborne position, airborne velocity), the
CRC computed in verify mode over all 112 bits of the 28-hex-character
frame equals 0; likewise for any frame assembled from an 88-bit body
with the `send_adsb` CRC variant. -/
theorem c1_crc_zero_residue (icao : ℕ) (cs : List Char) (lat lon alt speed heading vr : ℝ)
    (f body : ℕ) (hicao : icao < 2 ^ 24) (hf : f < 2) (halt0 : -1000 ≤ alt)
    (halt1 : alt ≤ 50175) (hbody : body < 2 ^ 88) :
    simCrc 28 (simEncodeCallsign icao cs) false = 0 ∧
    simCrc 28 (simEncodePosition icao lat lon alt f) false = 0 ∧
    simCrc 28 (simEncodeVelocity icao speed heading vr) false = 0 ∧
    sendCrc 28 (body * 2 ^ 24 + sendCrc 22 body true) false = 0 :=
⟨simCrc_verify_frame _, simCrc_verify_frame _, simCrc_verify_frame _, sendCrc_verify_frame body⟩

/-- Witness for C1 at concrete inputs. -/
theorem c1_crc_zero_residue_witness :
    simCrc 28 (simEncodeCallsign 0x4840D6 [Char.ofNat 75, Char.ofNat 76, Char.ofNat 77]) false = 0 ∧
    simCrc 28 (simEncodePosition 0x4840D6 52 4 38000 0) false = 0 ∧
    simCrc 28 (simEncodeVelocity 0x4840D6 159 183 (-832)) false = 0 ∧
    sendCrc 28 (5 * 2 ^ 24 + sendCrc 22 5 true) false = 0 :=
c1_crc_zero_residue 0x4840D6 [Char.ofNat 75, Char.ofNat 76, Char.ofNat 77] 52 4 38000 159 183
  (-832) 0 5 (by norm_num) (by norm_num) (by norm_num) (by norm_num) (by norm_num)

/-! ## C2: the altitude field layouts of the encoders and the decoder -/

/-- C2: the altitude round-trip fails on the code.  At the grid
altitude -1000 ft (code `N = 0`) the `aircraft_simulator` encoder
emits the field `top8 | Q | bottom3`, whose bit 4 is bit 3 of `N`; the
`atc_debian9` decoder reads the Q bit at bit 4 and returns no altitude.
The `send_adsb` encoder uses the layout `top7 | Q=1 | bottom4` stated
by the claim, and on that field the same decoder returns exactly
-1000. -/
theorem c2_altitude_roundtrip_bug :
    d9DecodeAltField (simAltField (altCode (-1000)).toNat) = none ∧
    d9DecodeAltField (sendAltField (altCode (-1000)).toNat) = some (-1000) := by
  have h : altCode (-1000) = 0 := by
    unfold altCode pytrunc
    norm_num
  rw [h]
  constructor
  · decide
  · decide

/-! ## C3: placement of the CPR format bit -/

/-- C3: the encoder writes the Time bit at ME bit 20 and the CPR format
bit F at ME bit 21 (bit indices 35 and 34 from the least significant
end of the 56-bit payload); for a frame encoded with `F = 1` the
`atc_debian9` decoder, which reads `me_bin[20]`, files the fragment
under the even parity, while the `atc_army_offline` decoder, which
reads `me_bin[21]`, files it under the odd parity. -/
theorem c3_cpr_format_bit_bug :
    positionME (simAltField 1448) 1 12345 54321 / 2 ^ 34 % 2 = 1 ∧
    positionME (simAltField 1448) 1 12345 54321 / 2 ^ 35 % 2 = 0 ∧
    (d9DecodePositionMe (positionME (simAltField 1448) 1 12345 54321) (d9NewRec 1 0)).1.latEvenCpr
      = some 12345 ∧
    (d9DecodePositionMe (positionME (simAltField 1448) 1 12345 54321) (d9NewRec 1 0)).1.latOddCpr
      = none ∧
    (armyDecodePositionMe (positionME (simAltField 1448) 1 12345 54321) 7 (armyNewRec 1 0)).1.positionOdd
      = some (12345, 54321, 7) := by
  have hme : positionME (simAltField 1448) 1 12345 54321 = 24969378108986417 := by
    norm_num [positionME, simAltField]
  rw [hme]
  refine ⟨by norm_num, by norm_num, ?_, ?_, ?_⟩
  · simp only [d9DecodePositionMe, d9NewRec]
    norm_num
  · simp only [d9DecodePositionMe, d9NewRec]
    norm_num
  · simp only [armyDecodePositionMe, armyNewRec]
    norm_num

/-! ## C4: Beast escaping and the inbound Beast parser -/

/-- C4: the Beast escape round-trip fails on the code.  For the frame
`c4Payload` (byte `0x1A` at offset 4) the encoder doubles the `0x1A`,
but the inbound parser of `atc_army_offline` takes wire bytes 9 to 22
verbatim without unescaping, yielding a shifted frame (with the doubled
`0x1A` kept and the last byte lost) instead of the original. -/
theorem c4_beast_escape_bug :
    beastEncodeMessage [0, 0, 0, 0, 0, 0] 200 c4Payload =
      some [0x1A, 0x33, 0, 0, 0, 0, 0, 0, 200, 0x8D, 0x48, 0x40, 0xD6, 0x1A, 0x1A, 0x2C, 0xC3,
        0x71, 0xC3, 0x2C, 0xE0, 0x57, 0x60, 0x98] ∧
    armyHandleChunk [0x1A, 0x33, 0, 0, 0, 0, 0, 0, 200, 0x8D, 0x48, 0x40, 0xD6, 0x1A, 0x1A, 0x2C,
        0xC3, 0x71, 0xC3, 0x2C, 0xE0, 0x57, 0x60, 0x98] =
      ([], [[0x8D, 0x48, 0x40, 0xD6, 0x1A, 0x1A, 0x2C, 0xC3, 0x71, 0xC3, 0x2C, 0xE0, 0x57, 0x60]],
        [0x98]) ∧
    [0x8D, 0x48, 0x40, 0xD6, 0x1A, 0x1A, 0x2C, 0xC3, 0x71, 0xC3, 0x2C, 0xE0, 0x57, 0x60] ≠
      c4Payload := by
  refine ⟨by decide, ?_, by decide⟩
  simp only [armyHandleChunk]
  rw [avrLoop.eq_def, dif_neg (by decide)]
  rw [beastLoop.eq_def]
  norm_num
  rw [beastLoop.eq_def]
  norm_num

/-! ## C9: which malformed frames leave the tracker unchanged -/

/-- C9 (amended): frames of wrong length leave both trackers unchanged,
and `atc_army_offline` also drops frames with a downlink format other
than 17 unchanged.  (No CRC check exists, and frames passing these
checks update the tracker even when their type code is unassigned.) -/
theorem c9_malformed_frames_amended (stA : List (ℕ × ArmyRec)) (stD : List (ℕ × D9Rec))
    (m1 m2 m3 : List ℕ) (t : ℚ) (h1 : m1.length ≠ 28) (h2 : nibVal (m2.take 2) / 8 ≠ 17)
    (h3 : m3.length ≠ 28) :
    armyProcessMessage stA m1 t = stA ∧
    armyProcessMessage stA m2 t = stA ∧
    d9HandleFrame stD m3 t = stD := by
  refine ⟨?_, ?_, ?_⟩
  · unfold armyProcessMessage
    rw [if_pos h1]
  · unfold armyProcessMessage
    by_cases hl : m2.length ≠ 28
    · rw [if_pos hl]
    · rw [if_neg hl, if_pos h2]
  · unfold d9HandleFrame
    rw [if_neg h3]

/-- Witness for the amended C9 at concrete inputs. -/
theorem c9_malformed_frames_amended_witness :
    armyProcessMessage [] [1, 2, 3] 0 = [] ∧
    armyProcessMessage [] (List.replicate 28 0) 0 = [] ∧
    d9HandleFrame [] [1, 2, 3] 0 = [] := by
  have h := c9_malformed_frames_amended [] [] [1, 2, 3] (List.replicate 28 0) [1, 2, 3] 0
    (by decide) (by decide) (by decide)
  exact h

/-- C9 fails as stated: a DF17 frame with the unassigned type code 5
(and an arbitrary CRC, which is never checked) still inserts a fresh
aircraft entry with its `last_seen` set, so the tracker state changes. -/
theorem c9_unknown_tc_updates_state :
    armyProcessMessage [] c9Frame 5 = [(1, armyNewRec 1 5)] ∧
    armyProcessMessage [] c9Frame 5 ≠ [] := by
  have h : armyProcessMessage [] c9Frame 5 = [(1, armyNewRec 1 5)] := by
    unfold armyProcessMessage
    rw [if_neg (by decide), if_neg (by decide)]
    norm_num [c9Frame, nibVal, dictGet, dictSet, armyNewRec]
  exact ⟨h, by rw [h]; exact fun hh => List.noConfusion hh⟩

/-! ## C8 and C10: the view snapshot -/

/-- Two entries of an association list with `Nodup` keys and the same
key are equal. -/
theorem keys_nodup_mem_unique {R : Type} : ∀ {l : List (ℕ × R)},
    (l.map Prod.fst).Nodup → ∀ {k : ℕ} {a b : R}, (k, a) ∈ l → (k, b) ∈ l → a = b := by
  intro l
  induction l with
  | nil => intro _ k a b ha; exact absurd ha (List.not_mem_nil _)
  | cons p l ih =>
    intro hnd k a b ha hb
    rw [List.map_cons, List.nodup_cons] at hnd
    rcases List.mem_cons.mp ha with ha1 | ha1 <;> rcases List.mem_cons.mp hb with hb1 | hb1
    · exact congrArg Prod.snd (ha1.trans hb1.symm)
    · exfalso
      apply hnd.1
      rw [← ha1]
      exact List.mem_map.mpr ⟨(k, b), hb1, rfl⟩
    · exfalso
      apply hnd.1
      rw [← hb1]
      exact List.mem_map.mpr ⟨(k, a), ha1, rfl⟩
    · exact ih hnd.2 ha1 hb1

/-- Every received-aircraft entry of the `atc_army_offline` snapshot
comes from a fresh tracker record with a known position. -/
theorem armyServeAdsb_spec (now : ℚ) (recv : List (ℕ × ArmyRec)) (e : ViewEntry)
    (he : e ∈ (armyServeAdsb now recv).2) :
    ∃ p, p ∈ recv ∧ ¬ 60 < now - p.2.lastSeen ∧ p.2.lat.isSome ∧ p.2.lon.isSome ∧
      e.hex = p.2.icao := by
  simp only [armyServeAdsb] at he
  rcases List.mem_filterMap.mp he with ⟨p, hp2, hpe⟩
  rw [List.mem_filter] at hp2
  by_cases hc : p.2.lat.isSome ∧ p.2.lon.isSome
  · rw [if_pos hc] at hpe
    have he2 := Option.some.inj hpe
    refine ⟨p, hp2.1, ?_, hc.1, hc.2, ?_⟩
    · have := hp2.2
      simpa using this
    · rw [← he2]
  · rw [if_neg hc] at hpe
    exact Option.noConfusion hpe

/-- Every received-aircraft entry of the `atc_debian9` snapshot comes
from a fresh tracker record with a known position. -/
theorem d9ServeAdsb_spec (now : ℚ) (recv : List (ℕ × D9Rec)) (e : ViewEntry)
    (he : e ∈ (d9ServeAdsb now recv).2) :
    ∃ p, p ∈ recv ∧ ¬ 30 < now - p.2.lastSeen ∧ p.2.lat.isSome ∧ p.2.lon.isSome ∧
      e.hex = p.2.icao := by
  simp only [d9ServeAdsb] at he
  rcases List.mem_filterMap.mp he with ⟨p, hp2, hpe⟩
  rw [List.mem_filter] at hp2
  by_cases hc : p.2.lat.isSome ∧ p.2.lon.isSome
  · rw [if_pos hc] at hpe
    have he2 := Option.some.inj hpe
    refine ⟨p, hp2.1, ?_, hc.1, hc.2, ?_⟩
    · have := hp2.2
      simpa using this
    · rw [← he2]
  · rw [if_neg hc] at hpe
    exact Option.noConfusion hpe

/-- C8: every received aircraft whose `last_seen` is older than the
configured timeout (60 s for `atc_army_offline`, 30 s for
`atc_debian9`) is absent from the aircraft array of the snapshot: the
view removes it before serialising. -/
theorem c8_staleness (sims : List ViewEntry) (now : ℚ) (recvA : List (ℕ × ArmyRec))
    (recvD : List (ℕ × D9Rec)) (iA iD : ℕ) (rA : ArmyRec) (rD : D9Rec)
    (hmemA : (iA, rA) ∈ recvA) (hstaleA : 60 < now - rA.lastSeen)
    (hkeyA : ∀ p ∈ recvA, (p : ℕ × ArmyRec).2.icao = p.1)
    (hnodupA : (recvA.map Prod.fst).Nodup)
    (hmemD : (iD, rD) ∈ recvD) (hstaleD : 30 < now - rD.lastSeen)
    (hkeyD : ∀ p ∈ recvD, (p : ℕ × D9Rec).2.icao = p.1)
    (hnodupD : (recvD.map Prod.fst).Nodup) :
    (∀ e ∈ armyServeAircraftJson sims now recvA, e.source = MsgSource.adsb → e.hex ≠ iA) ∧
    (∀ e ∈ d9ServeAircraftJson sims now recvD, e.source = MsgSource.adsb → e.hex ≠ iD) := by
  constructor
  · intro e he hsrc hhex
    unfold armyServeAircraftJson at he
    rcases List.mem_append.mp he with hsim | hadsb
    · rcases List.mem_map.mp hsim with ⟨e0, _, rfl⟩
      exact MsgSource.noConfusion hsrc
    · rcases armyServeAdsb_spec now recvA e hadsb with ⟨p, hp, hfresh, _, _, hhex2⟩
      have hp1 : p.1 = iA := by rw [← hkeyA p hp, ← hhex2, hhex]
      have hpmem : (iA, p.2) ∈ recvA := by
        have : p = (iA, p.2) := by
          rw [← hp1]
        rw [← this]
        exact hp
      have := keys_nodup_mem_unique hnodupA hpmem hmemA
      rw [this] at hfresh
      exact hfresh hstaleA
  · intro e he hsrc hhex
    unfold d9ServeAircraftJson at he
    rcases List.mem_append.mp he with hsim | hadsb
    · rcases List.mem_map.mp hsim with ⟨e0, _, rfl⟩
      exact MsgSource.noConfusion hsrc
    · rcases d9ServeAdsb_spec now recvD e hadsb with ⟨p, hp, hfresh, _, _, hhex2⟩
      have hp1 : p.1 = iD := by rw [← hkeyD p hp, ← hhex2, hhex]
      have hpmem : (iD, p.2) ∈ recvD := by
        have : p = (iD, p.2) := by
          rw [← hp1]
        rw [← this]
        exact hp
      have := keys_nodup_mem_unique hnodupD hpmem hmemD
      rw [this] at hfresh
      exact hfresh hstaleD

/-- Witness for C8: a single stale aircraft in each tracker is absent
from the snapshot. -/
theorem c8_staleness_witness :
    (∀ e ∈ armyServeAircraftJson [] 100 [(1, armyNewRec 1 0)], e.source = MsgSource.adsb →
      e.hex ≠ 1) ∧
    (∀ e ∈ d9ServeAircraftJson [] 100 [(2, d9NewRec 2 0)], e.source = MsgSource.adsb →
      e.hex ≠ 2) := by
  have h := c8_staleness [] 100 [(1, armyNewRec 1 0)] [(2, d9NewRec 2 0)] 1 2
    (armyNewRec 1 0) (d9NewRec 2 0) (List.mem_singleton.mpr rfl) (by norm_num [armyNewRec])
    (by intro p hp; rw [List.mem_singleton.mp hp]; rfl) (by simp)
    (List.mem_singleton.mpr rfl) (by norm_num [d9NewRec])
    (by intro p hp; rw [List.mem_singleton.mp hp]; rfl) (by simp)
  exact h

/-- C10: a received aircraft whose position has never been decoded (lat
or lon still unknown) is omitted from the aircraft array entirely, even
when fresh and carrying other data. -/
theorem c10_position_required (sims : List ViewEntry) (now : ℚ)
    (recvA : List (ℕ × ArmyRec)) (recvD : List (ℕ × D9Rec)) (iA iD : ℕ) (rA : ArmyRec)
    (rD : D9Rec) (hmemA : (iA, rA) ∈ recvA) (hposA : rA.lat = none ∨ rA.lon = none)
    (hkeyA : ∀ p ∈ recvA, (p : ℕ × ArmyRec).2.icao = p.1)
    (hnodupA : (recvA.map Prod.fst).Nodup)
    (hmemD : (iD, rD) ∈ recvD) (hposD : rD.lat = none ∨ rD.lon = none)
    (hkeyD : ∀ p ∈ recvD, (p : ℕ × D9Rec).2.icao = p.1)
    (hnodupD : (recvD.map Prod.fst).Nodup) :
    (∀ e ∈ armyServeAircraftJson sims now recvA, e.source = MsgSource.adsb → e.hex ≠ iA) ∧
    (∀ e ∈ d9ServeAircraftJson sims now recvD, e.source = MsgSource.adsb → e.hex ≠ iD) := by
  constructor
  · intro e he hsrc hhex
    unfold armyServeAircraftJson at he
    rcases List.mem_append.mp he with hsim | hadsb
    · rcases List.mem_map.mp hsim with ⟨e0, _, rfl⟩
      exact MsgSource.noConfusion hsrc
    · rcases armyServeAdsb_spec now recvA e hadsb with ⟨p, hp, _, hlat, hlon, hhex2⟩
      have hp1 : p.1 = iA := by rw [← hkeyA p hp, ← hhex2, hhex]
      have hpmem : (iA, p.2) ∈ recvA := by
        have : p = (iA, p.2) := by
          rw [← hp1]
        rw [← this]
        exact hp
      have heq := keys_nodup_mem_unique hnodupA hpmem hmemA
      rcases hposA with hn | hn
      · rw [heq, hn] at hlat
        exact Bool.noConfusion hlat
      · rw [heq, hn] at hlon
        exact Bool.noConfusion hlon
  · intro e he hsrc hhex
    unfold d9ServeAircraftJson at he
    rcases List.mem_append.mp he with hsim | hadsb
    · rcases List.mem_map.mp hsim with ⟨e0, _, rfl⟩
      exact MsgSource.noConfusion hsrc
    · rcases d9ServeAdsb_spec now recvD e hadsb with ⟨p, hp, _, hlat, hlon, hhex2⟩
      have hp1 : p.1 = iD := by rw [← hkeyD p hp, ← hhex2, hhex]
      have hpmem : (iD, p.2) ∈ recvD := by
        have : p = (iD, p.2) := by
          rw [← hp1]
        rw [← this]
        exact hp
      have heq := keys_nodup_mem_unique hnodupD hpmem hmemD
      rcases hposD with hn | hn
      · rw [heq, hn] at hlat
        exact Bool.noConfusion hlat
      · rw [heq, hn] at hlon
        exact Bool.noConfusion hlon

/-- Witness for C10: a fresh aircraft with callsign, altitude, speed
and heading but no decoded position is absent from both snapshots. -/
theorem c10_position_required_witness :
    (∀ e ∈ armyServeAircraftJson [] 1
        [(1, { armyNewRec 1 0 with callsign := [Char.ofNat 65], altitude := 35000, speed := 420, heading := 87 })],
      e.source = MsgSource.adsb → e.hex ≠ 1) ∧
    (∀ e ∈ d9ServeAircraftJson [] 1
        [(2, { d9NewRec 2 0 with callsign := some [Char.ofNat 65], altitude := some 35000, speed := some 420, heading := some 87 })],
      e.source = MsgSource.adsb → e.hex ≠ 2) := by
  have h := c10_position_required [] 1
    [(1, { armyNewRec 1 0 with callsign := [Char.ofNat 65], altitude := 35000, speed := 420, heading := 87 })]
    [(2, { d9NewRec 2 0 with callsign := some [Char.ofNat 65], altitude := some 35000, speed := some 420, heading := some 87 })]
    1 2
    { armyNewRec 1 0 with callsign := [Char.ofNat 65], altitude := 35000, speed := 420, heading := 87 }
    { d9NewRec 2 0 with callsign := some [Char.ofNat 65], altitude := some 35000, speed := some 420, heading := some 87 }
    (List.mem_singleton.mpr rfl) (Or.inl rfl)
    (by intro p hp; rw [List.mem_singleton.mp hp]; rfl) (by simp)
    (List.mem_singleton.mpr rfl) (Or.inl rfl)
    (by intro p hp; rw [List.mem_singleton.mp hp]; rfl) (by simp)
  exact h

/-! ## C7: CPR pair gating -/

/-- Truncation of one half toward zero. -/
theorem pytrunc_half : pytrunc (1 / 2 : ℝ) = 0 := by
  unfold pytrunc
  rw [if_pos (by norm_num)]
  rw [Int.floor_eq_zero_iff]
  constructor <;> norm_num

/-- The receivers' `_calculate_nl` evaluated at the equator: over the
exact reals the formula gives `2*pi / arccos(cos(pi/30)) = 60`
exactly. -/
theorem calculateNl_zero : calculateNl 0 = 60 := by
  unfold calculateNl
  rw [if_neg (by norm_num : ¬(87 : ℝ) ≤ |(0 : ℝ)|)]
  have hb : Real.cos (Real.pi * |(0 : ℝ)| / 180) ^ 2 = 1 := by
    simp
  rw [hb, div_one]
  have hsub : (1 : ℝ) - (1 - Real.cos (Real.pi / (2 * 15))) = Real.cos (Real.pi / (2 * 15)) := by
    ring
  rw [hsub]
  have hcospos : 0 < Real.cos (Real.pi / (2 * 15)) := by
    apply Real.cos_pos_of_mem_Ioo
    constructor
    · have := Real.pi_pos
      nlinarith
    · have := Real.pi_pos
      nlinarith
  rw [if_neg (by linarith)]
  have hac : Real.arccos (Real.cos (Real.pi / (2 * 15))) = Real.pi / (2 * 15) := by
    apply Real.arccos_cos
    · positivity
    · nlinarith [Real.pi_pos]
  rw [hac]
  have hval : 2 * Real.pi / (Real.pi / (2 * 15)) = 60 := by
    rw [div_div_eq_mul_div, mul_comm]
    field_simp
    ring
  rw [hval]
  unfold pytrunc
  rw [if_pos (by norm_num)]
  norm_num

/-- C7 (amended): both position decoders return no position until both
parities have been observed, whichever parity the incoming frame
carries; `atc_army_offline` additionally rejects an even/odd pair whose
reception timestamps differ by more than 10 seconds, again for either
arrival parity, while `atc_debian9` keeps no fragment timestamps at
all. -/
theorem c7_pair_gating_amended (meE meO meDE meDO : ℕ) (t tO tE : ℚ)
    (acA acB acC acD2 : ArmyRec) (acD acE : D9Rec) (le lo le2 lo2 : ℕ)
    (hE : meE / 2 ^ 34 % 2 = 0) (hO : meO / 2 ^ 34 % 2 = 1)
    (hDE : meDE / 2 ^ 35 % 2 = 0) (hDO : meDO / 2 ^ 35 % 2 = 1)
    (h1 : acA.positionOdd = none) (h2 : acB.positionEven = none)
    (h3 : acC.positionOdd = some (le, lo, tO)) (h4 : 10 < |t - tO|)
    (h5 : acD2.positionEven = some (le2, lo2, tE)) (h6 : 10 < |tE - t|)
    (h7 : acD.latOddCpr = none) (h8 : acE.latEvenCpr = none) :
    ((armyDecodePositionMe meE t acA).2.1 = none ∧ (armyDecodePositionMe meE t acA).2.2.1 = none) ∧
    ((armyDecodePositionMe meO t acB).2.1 = none ∧ (armyDecodePositionMe meO t acB).2.2.1 = none) ∧
    ((armyDecodePositionMe meE t acC).2.1 = none ∧ (armyDecodePositionMe meE t acC).2.2.1 = none) ∧
    ((armyDecodePositionMe meO t acD2).2.1 = none ∧
      (armyDecodePositionMe meO t acD2).2.2.1 = none) ∧
    ((d9DecodePositionMe meDE acD).2.1 = none ∧ (d9DecodePositionMe meDE acD).2.2.1 = none) ∧
    ((d9DecodePositionMe meDO acE).2.1 = none ∧ (d9DecodePositionMe meDO acE).2.2.1 = none) := by
  refine ⟨?_, ?_, ?_, ?_, ?_, ?_⟩
  · unfold armyDecodePositionMe
    rw [hE]
    simp [h1]
  · unfold armyDecodePositionMe
    rw [hO]
    simp [h2]
  · unfold armyDecodePositionMe
    rw [hE]
    simp only [ne_eq, not_true_eq_false, if_false, reduceIte]
    rw [h3]
    simp [h4]
  · unfold armyDecodePositionMe
    rw [hO]
    simp [h5, h6]
  · unfold d9DecodePositionMe
    rw [hDE]
    simp [h7]
  · unfold d9DecodePositionMe
    rw [hDO]
    simp [h8]

/-- Witness for the amended C7 at concrete inputs of both arrival
parities. -/
theorem c7_pair_gating_amended_witness :
    ((armyDecodePositionMe 0 0 (armyNewRec 1 0)).2.1 = none ∧
      (armyDecodePositionMe 0 0 (armyNewRec 1 0)).2.2.1 = none) ∧
    ((armyDecodePositionMe (2 ^ 34) 0 (armyNewRec 1 0)).2.1 = none ∧
      (armyDecodePositionMe (2 ^ 34) 0 (armyNewRec 1 0)).2.2.1 = none) ∧
    ((armyDecodePositionMe 0 0 { armyNewRec 1 0 with positionOdd := some (0, 0, 20) }).2.1 = none ∧
      (armyDecodePositionMe 0 0 { armyNewRec 1 0 with positionOdd := some (0, 0, 20) }).2.2.1 = none) ∧
    ((armyDecodePositionMe (2 ^ 34) 0 { armyNewRec 1 0 with positionEven := some (0, 0, 20) }).2.1 = none ∧
      (armyDecodePositionMe (2 ^ 34) 0 { armyNewRec 1 0 with positionEven := some (0, 0, 20) }).2.2.1 = none) ∧
    ((d9DecodePositionMe 0 (d9NewRec 2 0)).2.1 = none ∧
      (d9DecodePositionMe 0 (d9NewRec 2 0)).2.2.1 = none) ∧
    ((d9DecodePositionMe (2 ^ 35) (d9NewRec 2 0)).2.1 = none ∧
      (d9DecodePositionMe (2 ^ 35) (d9NewRec 2 0)).2.2.1 = none) := by
  have h := c7_pair_gating_amended 0 (2 ^ 34) 0 (2 ^ 35) 0 20 20
    (armyNewRec 1 0) (armyNewRec 1 0) { armyNewRec 1 0 with positionOdd := some (0, 0, 20) }
    { armyNewRec 1 0 with positionEven := some (0, 0, 20) } (d9NewRec 2 0) (d9NewRec 2 0)
    0 0 0 0
    (by norm_num) (by norm_num) (by norm_num) (by norm_num)
    rfl rfl rfl (by rw [zero_sub, abs_neg]; norm_num)
    rfl (by rw [sub_zero, abs_of_nonneg (by norm_num : (0 : ℚ) ≤ 20)]; norm_num)
    rfl rfl
  exact h

/-- Floor of one half. -/
theorem floor_half_real : ⌊(1 / 2 : ℝ)⌋ = 0 := by
  rw [Int.floor_eq_zero_iff]
  constructor <;> norm_num

/-- C7 fails as stated for `atc_debian9`: an even fragment received at
time 0 and an odd fragment received at time 100 (89 seconds past any
10-second window) are still combined into a decoded position, because
that receiver stores no fragment timestamps. -/
theorem c7_stale_pair_decoded_by_d9 :
    (dictGet (d9ProcessMessage (d9ProcessMessage [] c7FrameEven 0) c7FrameOdd 100) 1).map
      (fun r => (r.lat, r.lon)) = some (some 0, some 0) := by
  have hicaoE : nibVal ((c7FrameEven.drop 2).take 6) = 1 := by decide
  have hmeE : nibVal ((c7FrameEven.drop 8).take 14) = 24769797950537728 := by decide
  have hicaoO : nibVal ((c7FrameOdd.drop 2).take 6) = 1 := by decide
  have hmeO : nibVal ((c7FrameOdd.drop 8).take 14) = 24769832310276096 := by decide
  have halt : d9DecodeAltField 0 = none := by decide
  have hstep1 : d9ProcessMessage [] c7FrameEven 0 =
      [(1, { d9NewRec 1 0 with latEvenCpr := some 0, lonEvenCpr := some 0 })] := by
    unfold d9ProcessMessage
    rw [hicaoE, hmeE]
    norm_num [dictGet, dictSet, d9DecodePositionMe, halt, d9NewRec]
  rw [hstep1]
  unfold d9ProcessMessage
  rw [hicaoO, hmeO]
  norm_num [dictGet, dictSet, List.find?, d9DecodePositionMe, halt, d9NewRec, calculateNl_zero,
    pytrunc_half, floor_half_real, normLon, pytrunc]

/-! ## C6: the velocity round-trip -/

/-- Basic facts about truncation toward zero. -/
theorem pytrunc_sq (x : ℝ) : (pytrunc x : ℝ) ^ 2 ≤ x ^ 2 ∧
    x ^ 2 < (pytrunc x : ℝ) ^ 2 + 2 * |(pytrunc x : ℝ)| + 1 := by
  unfold pytrunc
  by_cases hx : 0 ≤ x
  · rw [if_pos hx]
    have h1 : (0 : ℝ) ≤ ⌊x⌋ := by exact_mod_cast Int.floor_nonneg.mpr hx
    have h2 : (⌊x⌋ : ℝ) ≤ x := Int.floor_le x
    have h3 : x < (⌊x⌋ : ℝ) + 1 := Int.lt_floor_add_one x
    constructor
    · nlinarith
    · rw [abs_of_nonneg h1]
      nlinarith
  · rw [if_neg hx]
    push_neg at hx
    have h0 : ⌈x⌉ ≤ (0 : ℤ) := Int.ceil_le.mpr (by exact_mod_cast hx.le)
    have h1 : (⌈x⌉ : ℝ) ≤ 0 := by exact_mod_cast h0
    have h2 : x ≤ (⌈x⌉ : ℝ) := Int.le_ceil x
    have h3 : (⌈x⌉ : ℝ) < x + 1 := Int.ceil_lt_add_one x
    constructor
    · nlinarith
    · rw [abs_of_nonpos h1]
      nlinarith

/-- The Euclidean norm of the truncated components is within `sqrt 2`
below the true norm. -/
theorem sqrt_trunc_close (x y : ℝ) :
    Real.sqrt ((pytrunc x : ℝ) ^ 2 + (pytrunc y : ℝ) ^ 2) ≤ Real.sqrt (x ^ 2 + y ^ 2) ∧
    Real.sqrt (x ^ 2 + y ^ 2) <
      Real.sqrt ((pytrunc x : ℝ) ^ 2 + (pytrunc y : ℝ) ^ 2) + Real.sqrt 2 := by
  obtain ⟨hx1, hx2⟩ := pytrunc_sq x
  obtain ⟨hy1, hy2⟩ := pytrunc_sq y
  set px : ℝ := (pytrunc x : ℝ)
  set py : ℝ := (pytrunc y : ℝ)
  have hA : (0 : ℝ) ≤ px ^ 2 + py ^ 2 := by positivity
  have hB : (0 : ℝ) ≤ x ^ 2 + y ^ 2 := by positivity
  have hAB : px ^ 2 + py ^ 2 ≤ x ^ 2 + y ^ 2 := by nlinarith
  constructor
  · exact Real.sqrt_le_sqrt hAB
  · have hsA : Real.sqrt (px ^ 2 + py ^ 2) ^ 2 = px ^ 2 + py ^ 2 := Real.sq_sqrt hA
    have hs2 : Real.sqrt 2 ^ 2 = 2 := Real.sq_sqrt (by norm_num)
    have hsApos : 0 ≤ Real.sqrt (px ^ 2 + py ^ 2) := Real.sqrt_nonneg _
    have hs2pos : 0 < Real.sqrt 2 := Real.sqrt_pos.mpr (by norm_num)
    have habs : |px| + |py| ≤ Real.sqrt 2 * Real.sqrt (px ^ 2 + py ^ 2) := by
      have hsq : (|px| + |py|) ^ 2 ≤ 2 * (px ^ 2 + py ^ 2) := by
        have h1 : (|px| - |py|) ^ 2 ≥ 0 := sq_nonneg _
        have h2 : |px| ^ 2 = px ^ 2 := sq_abs px
        have h3 : |py| ^ 2 = py ^ 2 := sq_abs py
        nlinarith
      have h4 : (0 : ℝ) ≤ |px| + |py| := by positivity
      have h5 : (0 : ℝ) ≤ Real.sqrt 2 * Real.sqrt (px ^ 2 + py ^ 2) := by positivity
      nlinarith [sq_nonneg (|px| + |py| - Real.sqrt 2 * Real.sqrt (px ^ 2 + py ^ 2)),
        sq_nonneg (|px| + |py| + Real.sqrt 2 * Real.sqrt (px ^ 2 + py ^ 2))]
    have hBlt : x ^ 2 + y ^ 2 <
        (Real.sqrt (px ^ 2 + py ^ 2) + Real.sqrt 2) ^ 2 := by
      have hexp : (Real.sqrt (px ^ 2 + py ^ 2) + Real.sqrt 2) ^ 2 =
          px ^ 2 + py ^ 2 + 2 * (Real.sqrt 2 * Real.sqrt (px ^ 2 + py ^ 2)) + 2 := by
        ring_nf
        nlinarith [hsA, hs2]
      rw [hexp]
      nlinarith
    have := (Real.sqrt_lt' (by positivity)).mpr hBlt
    exact this

/-- Field extraction from the velocity ME payload inverts the
assembly for in-range fields. -/
theorem velocityME_extract (es ev ns nv vs vv : ℕ) (hes : es < 2) (hev : ev < 2 ^ 10)
    (hns : ns < 2) (hnv : nv < 2 ^ 10) (hvs : vs < 2) (hvv : vv < 2 ^ 9) :
    velocityME es ev ns nv vs vv / 2 ^ 51 % 2 ^ 5 = 19 ∧
    velocityME es ev ns nv vs vv / 2 ^ 42 % 2 = es ∧
    velocityME es ev ns nv vs vv / 2 ^ 32 % 2 ^ 10 = ev ∧
    velocityME es ev ns nv vs vv / 2 ^ 31 % 2 = ns ∧
    velocityME es ev ns nv vs vv / 2 ^ 21 % 2 ^ 10 = nv := by
  unfold velocityME
  norm_num at hev hnv hvv ⊢
  refine ⟨?_, ?_, ?_, ?_, ?_⟩ <;> omega

/-- The signed magnitude decoding of `_decode_velocity` inverts the
signed magnitude encoding of `encode_velocity`: the result is the
component truncated toward zero (for components of magnitude at most
1022, where the clamp at 1023 is inactive). -/
theorem velocity_component_roundtrip (x : ℝ) (hx : |x| ≤ 1022) :
    (if (if 0 ≤ x then (0 : ℕ) else 1) = 1 then
      -((min ((pytrunc |x|).toNat + 1) 1023 : ℕ) - 1 : ℤ)
    else ((min ((pytrunc |x|).toNat + 1) 1023 : ℕ) - 1 : ℤ)) = pytrunc x := by
  have habs : pytrunc |x| = ⌊|x|⌋ := by
    unfold pytrunc
    rw [if_pos (abs_nonneg x)]
  have hfl : ⌊|x|⌋ ≤ 1022 := by
    have : (⌊|x|⌋ : ℝ) ≤ 1022 := le_trans (Int.floor_le _) hx
    exact_mod_cast this
  have hfl0 : 0 ≤ ⌊|x|⌋ := Int.floor_nonneg.mpr (abs_nonneg x)
  have hmin : min ((pytrunc |x|).toNat + 1) 1023 = (pytrunc |x|).toNat + 1 := by
    rw [habs]
    omega
  rw [hmin, habs]
  by_cases hx0 : 0 ≤ x
  · rw [if_pos hx0]
    norm_num
    rw [max_eq_left hfl0, abs_of_nonneg hx0]
    unfold pytrunc
    rw [if_pos hx0]
  · rw [if_neg hx0]
    norm_num
    rw [max_eq_left hfl0, abs_of_neg (not_le.mp hx0)]
    unfold pytrunc
    rw [if_neg hx0, Int.floor_neg]
    norm_num

/-- C6 (amended): for all speeds in [0, 1022] knots and any heading and
vertical rate, decoding the encoded airborne velocity frame yields
exactly the Euclidean norm and bearing of the two velocity components
truncated toward zero; the decoded speed is therefore within
`sqrt 2 < 1.42` knots of the input (but not within 1 knot in general,
and the heading can deviate arbitrarily at low speeds). -/
theorem c6_velocity_roundtrip_amended (s h vr : ℝ) (h0 : 0 ≤ s) (h1 : s ≤ 1022) :
    decodeVelocityMe (simVelME s h vr) =
      some (Real.sqrt ((pytrunc (s * Real.sin (h * Real.pi / 180)) : ℝ) ^ 2 +
          (pytrunc (s * Real.cos (h * Real.pi / 180)) : ℝ) ^ 2),
        pymodR (pyAtan2 ((pytrunc (s * Real.sin (h * Real.pi / 180)) : ℝ))
            ((pytrunc (s * Real.cos (h * Real.pi / 180)) : ℝ)) * 180 / Real.pi) 360) ∧
    |Real.sqrt ((pytrunc (s * Real.sin (h * Real.pi / 180)) : ℝ) ^ 2 +
        (pytrunc (s * Real.cos (h * Real.pi / 180)) : ℝ) ^ 2) - s| < Real.sqrt 2 := by
  set vew : ℝ := s * Real.sin (h * Real.pi / 180) with hvew_def
  set vns : ℝ := s * Real.cos (h * Real.pi / 180) with hvns_def
  have hsin : |Real.sin (h * Real.pi / 180)| ≤ 1 :=
    abs_le.mpr ⟨Real.neg_one_le_sin _, Real.sin_le_one _⟩
  have hcos : |Real.cos (h * Real.pi / 180)| ≤ 1 :=
    abs_le.mpr ⟨Real.neg_one_le_cos _, Real.cos_le_one _⟩
  have hvew : |vew| ≤ 1022 := by
    rw [hvew_def, abs_mul, abs_of_nonneg h0]
    calc s * |Real.sin (h * Real.pi / 180)| ≤ s * 1 := by
          exact mul_le_mul_of_nonneg_left hsin h0
    _ ≤ 1022 := by linarith
  have hvns : |vns| ≤ 1022 := by
    rw [hvns_def, abs_mul, abs_of_nonneg h0]
    calc s * |Real.cos (h * Real.pi / 180)| ≤ s * 1 := by
          exact mul_le_mul_of_nonneg_left hcos h0
    _ ≤ 1022 := by linarith
  have hes : (if 0 ≤ vew then (0 : ℕ) else 1) < 2 := by split <;> norm_num
  have hns2 : (if 0 ≤ vns then (0 : ℕ) else 1) < 2 := by split <;> norm_num
  have hev : min ((pytrunc |vew|).toNat + 1) 1023 < 2 ^ 10 :=
    lt_of_le_of_lt (min_le_right _ _) (by norm_num)
  have hnv : min ((pytrunc |vns|).toNat + 1) 1023 < 2 ^ 10 :=
    lt_of_le_of_lt (min_le_right _ _) (by norm_num)
  have hvs : (if 0 ≤ vr then (0 : ℕ) else 1) < 2 := by split <;> norm_num
  have hvv : (if vr = 0 then (0 : ℕ) else min ((pytrunc (|vr| / 64)).toNat + 1) 511) < 2 ^ 9 := by
    split
    · norm_num
    · exact lt_of_le_of_lt (min_le_right _ _) (by norm_num)
  obtain ⟨htc, h_es, h_ev, h_ns, h_nv⟩ := velocityME_extract _ _ _ _ _ _ hes hev hns2 hnv hvs hvv
  have hme : simVelME s h vr = velocityME (if 0 ≤ vew then 0 else 1)
      (min ((pytrunc |vew|).toNat + 1) 1023) (if 0 ≤ vns then 0 else 1)
      (min ((pytrunc |vns|).toNat + 1) 1023) (if 0 ≤ vr then 0 else 1)
      (if vr = 0 then 0 else min ((pytrunc (|vr| / 64)).toNat + 1) 511) := rfl
  have hcomp1 := velocity_component_roundtrip vew hvew
  have hcomp2 := velocity_component_roundtrip vns hvns
  constructor
  · unfold decodeVelocityMe
    rw [hme, htc, h_es, h_ev, h_ns, h_nv]
    rw [if_neg (by norm_num)]
    rw [hcomp1, hcomp2]
  · have hnorm : vew ^ 2 + vns ^ 2 = s ^ 2 := by
      have hpyth := Real.sin_sq_add_cos_sq (h * Real.pi / 180)
      rw [hvew_def, hvns_def]
      linear_combination s ^ 2 * hpyth
    obtain ⟨hle, hlt⟩ := sqrt_trunc_close vew vns
    rw [hnorm, Real.sqrt_sq h0] at hle hlt
    have h2pos : 0 < Real.sqrt 2 := Real.sqrt_pos.mpr (by norm_num)
    exact abs_lt.mpr ⟨by linarith, by linarith⟩

/-- Witness for the amended C6 at `s = 0`, `h = 0`, `vr = 0`. -/
theorem c6_velocity_roundtrip_amended_witness :
    decodeVelocityMe (simVelME 0 0 0) =
      some (Real.sqrt ((pytrunc (0 * Real.sin (0 * Real.pi / 180)) : ℝ) ^ 2 +
          (pytrunc (0 * Real.cos (0 * Real.pi / 180)) : ℝ) ^ 2),
        pymodR (pyAtan2 ((pytrunc (0 * Real.sin (0 * Real.pi / 180)) : ℝ))
            ((pytrunc (0 * Real.cos (0 * Real.pi / 180)) : ℝ)) * 180 / Real.pi) 360) ∧
    |Real.sqrt ((pytrunc (0 * Real.sin (0 * Real.pi / 180)) : ℝ) ^ 2 +
        (pytrunc (0 * Real.cos (0 * Real.pi / 180)) : ℝ) ^ 2) - 0| < Real.sqrt 2 :=
c6_velocity_roundtrip_amended 0 0 0 (by norm_num) (by norm_num)

/-- C6 fails as stated: at speed 65 kn and heading 45 degrees both
velocity components are `65 * sqrt 2 / 2 = 45.96...`, truncated to 45;
the decoded speed is `sqrt 4050 = 63.63...`, more than 1 knot below the
input. -/
theorem c6_velocity_pm1_fails :
    decodeVelocityMe (simVelME 65 45 0) = some (Real.sqrt 4050, 45) ∧
    1 < |(65 : ℝ) - Real.sqrt 4050| := by
  have harg : (45 : ℝ) * Real.pi / 180 = Real.pi / 4 := by ring
  have hsin : Real.sin ((45 : ℝ) * Real.pi / 180) = Real.sqrt 2 / 2 := by
    rw [harg, Real.sin_pi_div_four]
  have hcos : Real.cos ((45 : ℝ) * Real.pi / 180) = Real.sqrt 2 / 2 := by
    rw [harg, Real.cos_pi_div_four]
  have hlo : (90 / 65 : ℝ) < Real.sqrt 2 := by
    rw [show (90 / 65 : ℝ) = ((90 : ℝ) / 65) from rfl]
    apply Real.lt_sqrt_of_sq_lt
    norm_num
  have hhi : Real.sqrt 2 < 92 / 65 := by
    rw [Real.sqrt_lt' (by norm_num)]
    norm_num
  have hv : (0 : ℝ) ≤ 65 * (Real.sqrt 2 / 2) := by positivity
  have hfloor : ⌊|(65 : ℝ) * (Real.sqrt 2 / 2)|⌋ = 45 := by
    rw [abs_of_nonneg hv, Int.floor_eq_iff]
    constructor
    · push_cast
      nlinarith
    · push_cast
      nlinarith
  have hpy : pytrunc |(65 : ℝ) * (Real.sqrt 2 / 2)| = 45 := by
    unfold pytrunc
    rw [if_pos (abs_nonneg _), hfloor]
  have hme : simVelME 65 45 0 = velocityME 0 46 0 46 0 0 := by
    unfold simVelME
    rw [hsin, hcos, hpy, if_pos hv]
    norm_num
    rfl
  obtain ⟨htc, h_es, h_ev, h_ns, h_nv⟩ := velocityME_extract 0 46 0 46 0 0 (by norm_num)
    (by norm_num) (by norm_num) (by norm_num) (by norm_num) (by norm_num)
  have hs4050 : Real.sqrt 4050 < 64 := by
    rw [Real.sqrt_lt' (by norm_num)]
    norm_num
  constructor
  · unfold decodeVelocityMe
    rw [hme, htc, h_es, h_ev, h_ns, h_nv]
    rw [if_neg (by norm_num)]
    have hsp : (((if (0 : ℕ) = 1 then -((46 : ℕ) - 1 : ℤ) else ((46 : ℕ) - 1 : ℤ)) : ℤ) : ℝ) = 45 := by
      norm_num
    rw [hsp]
    have hspv : (45 : ℝ) ^ 2 + (45 : ℝ) ^ 2 = 4050 := by norm_num
    rw [hspv]
    have hat : pyAtan2 (45 : ℝ) 45 = Real.pi / 4 := by
      unfold pyAtan2
      rw [if_pos (by norm_num : (0 : ℝ) < 45)]
      norm_num [Real.arctan_one]
    rw [hat]
    have hdeg : Real.pi / 4 * 180 / Real.pi = 45 := by
      field_simp
      ring
    rw [hdeg]
    have hmod : pymodR 45 360 = 45 := by
      unfold pymodR
      have : ⌊(45 / 360 : ℝ)⌋ = 0 := by
        rw [Int.floor_eq_zero_iff]
        constructor <;> norm_num
      rw [this]
      norm_num
    rw [hmod]
  · have h0 : 0 < (65 : ℝ) - Real.sqrt 4050 := by linarith
    rw [abs_of_pos h0]
    linarith

/-! ## Bounds and monotonicity of the two NL functions -/

/-- The constant `a = 1 - cos(pi/30)` of both NL functions is
`2 * sin(pi/60)^2`. -/
theorem nlA_eq : 1 - Real.cos (Real.pi / (2 * 15)) = 2 * Real.sin (Real.pi / 60) ^ 2 := by
  have h := Real.sin_sq_eq_half_sub (Real.pi / 60)
  have harg : 2 * (Real.pi / 60) = Real.pi / (2 * 15) := by ring
  rw [harg] at h
  linarith

/-- `sin(pi/60)` is positive. -/
theorem sin60_pos : 0 < Real.sin (Real.pi / 60) := by
  apply Real.sin_pos_of_pos_of_lt_pi
  · positivity
  · have := Real.pi_pos
    linarith

/-- The constant `a` is positive. -/
theorem nlA_pos : 0 < 1 - Real.cos (Real.pi / (2 * 15)) := by
  rw [nlA_eq]
  have := sin60_pos
  positivity

/-- `cos(87 deg) = sin(pi/60)` exactly. -/
theorem cos87_eq : Real.cos (87 * Real.pi / 180) = Real.sin (Real.pi / 60) := by
  have harg : (87 : ℝ) * Real.pi / 180 = Real.pi / 2 - Real.pi / 60 := by ring
  rw [harg, Real.cos_pi_div_two_sub]

/-- `arccos` is antitone on all of `ℝ`. -/
theorem arccos_anti {x y : ℝ} (h : x ≤ y) : Real.arccos y ≤ Real.arccos x := by
  rw [Real.arccos_eq_pi_div_two_sub_arcsin, Real.arccos_eq_pi_div_two_sub_arcsin]
  have := Real.monotone_arcsin h
  linarith

/-- Value of `_calculate_nl` in its final branch. -/
theorem calculateNl_of_main (l : ℝ)
    (h87 : ¬ (87 : ℝ) ≤ |l|)
    (ht : ¬ 1 - (1 - Real.cos (Real.pi / (2 * 15))) / Real.cos (Real.pi * |l| / 180) ^ 2 ≤ 0) :
    calculateNl l = pytrunc (2 * Real.pi / Real.arccos
      (1 - (1 - Real.cos (Real.pi / (2 * 15))) / Real.cos (Real.pi * |l| / 180) ^ 2)) := by
  unfold calculateNl
  rw [if_neg h87, if_neg ht]

/-- Value of `_calculate_nl` in its second branch. -/
theorem calculateNl_of_neg (l : ℝ)
    (h87 : ¬ (87 : ℝ) ≤ |l|)
    (ht : 1 - (1 - Real.cos (Real.pi / (2 * 15))) / Real.cos (Real.pi * |l| / 180) ^ 2 ≤ 0) :
    calculateNl l = 1 := by
  unfold calculateNl
  rw [if_neg h87, if_pos ht]

/-- The cosine of the degree-scaled angle is positive below 87 deg. -/
theorem cosdeg_pos (l : ℝ) (h87 : |l| < 87) : 0 < Real.cos (Real.pi * |l| / 180) := by
  apply Real.cos_pos_of_mem_Ioo
  constructor
  · have hp := Real.pi_pos
    have h0 : 0 ≤ Real.pi * |l| / 180 := by positivity
    linarith
  · have hp := Real.pi_pos
    rw [div_lt_iff (by norm_num : (0 : ℝ) < 180)]
    nlinarith [abs_nonneg l]

/-- `_calculate_nl` always returns at least 1. -/
theorem calculateNl_ge_one (l : ℝ) : 1 ≤ calculateNl l := by
  by_cases h87 : (87 : ℝ) ≤ |l|
  · unfold calculateNl
    rw [if_pos h87]
  · by_cases ht : 1 - (1 - Real.cos (Real.pi / (2 * 15))) / Real.cos (Real.pi * |l| / 180) ^ 2 ≤ 0
    · rw [calculateNl_of_neg l h87 ht]
    · rw [calculateNl_of_main l h87 ht]
      push_neg at ht h87
      set t := 1 - (1 - Real.cos (Real.pi / (2 * 15))) / Real.cos (Real.pi * |l| / 180) ^ 2 with htdef
      have hb : 0 < Real.cos (Real.pi * |l| / 180) ^ 2 := by
        have := cosdeg_pos l h87
        positivity
      have ht1 : t < 1 := by
        rw [htdef]
        have : 0 < (1 - Real.cos (Real.pi / (2 * 15))) / Real.cos (Real.pi * |l| / 180) ^ 2 :=
          div_pos nlA_pos hb
        linarith
      have hac_pos : 0 < Real.arccos t := Real.arccos_pos.mpr ht1
      have hac_le : Real.arccos t ≤ Real.pi := Real.arccos_le_pi t
      have hval : (2 : ℝ) ≤ 2 * Real.pi / Real.arccos t := by
        have h1 : 2 * Real.pi / Real.pi ≤ 2 * Real.pi / Real.arccos t :=
          div_le_div_of_nonneg_left (by positivity) hac_pos hac_le
        have h2 : 2 * Real.pi / Real.pi = 2 := by
          field_simp
        linarith
      have hnn : (0 : ℝ) ≤ 2 * Real.pi / Real.arccos t := by linarith
      unfold pytrunc
      rw [if_pos hnn]
      have : (1 : ℤ) ≤ 2 := by norm_num
      refine le_trans this (Int.le_floor.mpr ?_)
      push_cast
      linarith

/-- `_calculate_nl` at 87 degrees and beyond returns 1. -/
theorem calculateNl_eq_one_of_87 (l : ℝ) (h : (87 : ℝ) ≤ |l|) : calculateNl l = 1 := by
  unfold calculateNl
  rw [if_pos h]

/-- `_calculate_nl` is monotonically non-increasing in the absolute
latitude. -/
theorem calculateNl_anti (x y : ℝ) (hxy : |x| ≤ |y|) : calculateNl y ≤ calculateNl x := by
  by_cases h87y : (87 : ℝ) ≤ |y|
  · rw [calculateNl_eq_one_of_87 y h87y]
    exact calculateNl_ge_one x
  · push_neg at h87y
    have h87x : |x| < 87 := lt_of_le_of_lt hxy h87y
    have hcosy := cosdeg_pos y h87y
    have hcosx := cosdeg_pos x h87x
    have haxy : Real.pi * |x| / 180 ≤ Real.pi * |y| / 180 := by
      have hp := Real.pi_pos
      gcongr
    have haypi : Real.pi * |y| / 180 ≤ Real.pi := by
      have hp := Real.pi_pos
      rw [div_le_iff (by norm_num : (0 : ℝ) < 180)]
      nlinarith [abs_nonneg y]
    have hcos_le : Real.cos (Real.pi * |y| / 180) ≤ Real.cos (Real.pi * |x| / 180) :=
      Real.cos_le_cos_of_nonneg_of_le_pi (by positivity) haypi haxy
    have hbx : 0 < Real.cos (Real.pi * |x| / 180) ^ 2 := by positivity
    have hby : 0 < Real.cos (Real.pi * |y| / 180) ^ 2 := by positivity
    have hb_le : Real.cos (Real.pi * |y| / 180) ^ 2 ≤ Real.cos (Real.pi * |x| / 180) ^ 2 := by
      nlinarith
    have hdiv : (1 - Real.cos (Real.pi / (2 * 15))) / Real.cos (Real.pi * |x| / 180) ^ 2 ≤
        (1 - Real.cos (Real.pi / (2 * 15))) / Real.cos (Real.pi * |y| / 180) ^ 2 :=
      div_le_div_of_nonneg_left nlA_pos.le hby hb_le
    by_cases hty : 1 - (1 - Real.cos (Real.pi / (2 * 15))) / Real.cos (Real.pi * |y| / 180) ^ 2 ≤ 0
    · rw [calculateNl_of_neg y (not_le.mpr h87y) hty]
      exact calculateNl_ge_one x
    · have htx : ¬ 1 - (1 - Real.cos (Real.pi / (2 * 15))) / Real.cos (Real.pi * |x| / 180) ^ 2 ≤ 0 := by
        push_neg at hty ⊢
        linarith
      rw [calculateNl_of_main y (not_le.mpr h87y) hty, calculateNl_of_main x (not_le.mpr h87x) htx]
      push_neg at hty htx
      have htx1 : 1 - (1 - Real.cos (Real.pi / (2 * 15))) / Real.cos (Real.pi * |x| / 180) ^ 2 < 1 := by
        have : 0 < (1 - Real.cos (Real.pi / (2 * 15))) / Real.cos (Real.pi * |x| / 180) ^ 2 :=
          div_pos nlA_pos hbx
        linarith
      have hty1 : 1 - (1 - Real.cos (Real.pi / (2 * 15))) / Real.cos (Real.pi * |y| / 180) ^ 2 < 1 := by
        have : 0 < (1 - Real.cos (Real.pi / (2 * 15))) / Real.cos (Real.pi * |y| / 180) ^ 2 :=
          div_pos nlA_pos hby
        linarith
      have hT : 1 - (1 - Real.cos (Real.pi / (2 * 15))) / Real.cos (Real.pi * |y| / 180) ^ 2 ≤
          1 - (1 - Real.cos (Real.pi / (2 * 15))) / Real.cos (Real.pi * |x| / 180) ^ 2 := by
        linarith
      have hacx : 0 < Real.arccos
          (1 - (1 - Real.cos (Real.pi / (2 * 15))) / Real.cos (Real.pi * |x| / 180) ^ 2) :=
        Real.arccos_pos.mpr htx1
      have hac_le := arccos_anti hT
      have hvle : 2 * Real.pi / Real.arccos
            (1 - (1 - Real.cos (Real.pi / (2 * 15))) / Real.cos (Real.pi * |y| / 180) ^ 2) ≤
          2 * Real.pi / Real.arccos
            (1 - (1 - Real.cos (Real.pi / (2 * 15))) / Real.cos (Real.pi * |x| / 180) ^ 2) :=
        div_le_div_of_nonneg_left (by positivity) hacx hac_le
      have hnnx : (0 : ℝ) ≤ 2 * Real.pi / Real.arccos
          (1 - (1 - Real.cos (Real.pi / (2 * 15))) / Real.cos (Real.pi * |x| / 180) ^ 2) :=
        div_nonneg (by positivity) (Real.arccos_nonneg _)
      have hnny : (0 : ℝ) ≤ 2 * Real.pi / Real.arccos
          (1 - (1 - Real.cos (Real.pi / (2 * 15))) / Real.cos (Real.pi * |y| / 180) ^ 2) :=
        div_nonneg (by positivity) (Real.arccos_nonneg _)
      unfold pytrunc
      rw [if_pos hnnx, if_pos hnny]
      exact Int.floor_le_floor hvle

/-- Value of the simulator `nl` in its final branch. -/
theorem simNl_of_main (l : ℝ) (h0 : l ≠ 0) (hhalf : ¬ Real.pi / 2 ≤ |l|)
    (ht : ¬ 1 - (1 - Real.cos (Real.pi / (2 * 15))) / Real.cos l ^ 2 ≤ 0) :
    simNl l = ⌊2 * Real.pi / Real.arccos
      (1 - (1 - Real.cos (Real.pi / (2 * 15))) / Real.cos l ^ 2)⌋ := by
  unfold simNl
  rw [if_neg h0, if_neg hhalf, if_neg ht]

/-- Value of the simulator `nl` in its third branch. -/
theorem simNl_of_neg (l : ℝ) (h0 : l ≠ 0) (hhalf : ¬ Real.pi / 2 ≤ |l|)
    (ht : 1 - (1 - Real.cos (Real.pi / (2 * 15))) / Real.cos l ^ 2 ≤ 0) :
    simNl l = 1 := by
  unfold simNl
  rw [if_neg h0, if_neg hhalf, if_pos ht]

/-- Inside the radian zone the cosine is positive. -/
theorem cosrad_pos (l : ℝ) (hhalf : |l| < Real.pi / 2) : 0 < Real.cos l := by
  rw [← Real.cos_abs]
  apply Real.cos_pos_of_mem_Ioo
  constructor
  · have := abs_nonneg l
    have := Real.pi_pos
    linarith
  · exact hhalf

/-- The simulator `nl` always returns at least 1. -/
theorem simNl_ge_one (l : ℝ) : 1 ≤ simNl l := by
  by_cases h0 : l = 0
  · unfold simNl
    rw [if_pos h0]
    norm_num
  · by_cases hhalf : Real.pi / 2 ≤ |l|
    · unfold simNl
      rw [if_neg h0, if_pos hhalf]
    · by_cases ht : 1 - (1 - Real.cos (Real.pi / (2 * 15))) / Real.cos l ^ 2 ≤ 0
      · rw [simNl_of_neg l h0 hhalf ht]
      · rw [simNl_of_main l h0 hhalf ht]
        push_neg at ht hhalf
        have hb : 0 < Real.cos l ^ 2 := by
          have := cosrad_pos l hhalf
          positivity
        have ht1 : 1 - (1 - Real.cos (Real.pi / (2 * 15))) / Real.cos l ^ 2 < 1 := by
          have : 0 < (1 - Real.cos (Real.pi / (2 * 15))) / Real.cos l ^ 2 :=
            div_pos nlA_pos hb
          linarith
        have hac_pos : 0 < Real.arccos
            (1 - (1 - Real.cos (Real.pi / (2 * 15))) / Real.cos l ^ 2) :=
          Real.arccos_pos.mpr ht1
        have hac_le := Real.arccos_le_pi
          (1 - (1 - Real.cos (Real.pi / (2 * 15))) / Real.cos l ^ 2)
        have hval : (2 : ℝ) ≤ 2 * Real.pi / Real.arccos
            (1 - (1 - Real.cos (Real.pi / (2 * 15))) / Real.cos l ^ 2) := by
          have h1 := div_le_div_of_nonneg_left (by positivity : (0 : ℝ) ≤ 2 * Real.pi)
            hac_pos hac_le
          have h2 : 2 * Real.pi / Real.pi = 2 := by
            field_simp
          linarith
        have : (1 : ℤ) ≤ 2 := by norm_num
        refine le_trans this (Int.le_floor.mpr ?_)
        push_cast
        linarith

/-- The simulator `nl` never exceeds 59. -/
theorem simNl_le_59 (l : ℝ) : simNl l ≤ 59 := by
  by_cases h0 : l = 0
  · unfold simNl
    rw [if_pos h0]
  · by_cases hhalf : Real.pi / 2 ≤ |l|
    · unfold simNl
      rw [if_neg h0, if_pos hhalf]
      norm_num
    · by_cases ht : 1 - (1 - Real.cos (Real.pi / (2 * 15))) / Real.cos l ^ 2 ≤ 0
      · rw [simNl_of_neg l h0 hhalf ht]
        norm_num
      · rw [simNl_of_main l h0 hhalf ht]
        push_neg at ht hhalf
        have hcos : 0 < Real.cos l := cosrad_pos l hhalf
        have hb : 0 < Real.cos l ^ 2 := by positivity
        have hcosne : Real.cos l ≠ 1 := by
          intro hc
          apply h0
          have hpi := Real.pi_pos
          have h2pi : -(2 * Real.pi) < l ∧ l < 2 * Real.pi := by
            constructor
            · have := abs_lt.mp hhalf
              linarith [this.1]
            · have := abs_lt.mp (show |l| < Real.pi / 2 from hhalf)
              linarith [this.2]
          exact (Real.cos_eq_one_iff_of_lt_of_lt h2pi.1 h2pi.2).mp hc
        have hcos1 : Real.cos l < 1 := lt_of_le_of_ne (Real.cos_le_one l) hcosne
        have hb1 : Real.cos l ^ 2 < 1 := by nlinarith
        have hdivgt : 1 - Real.cos (Real.pi / (2 * 15)) <
            (1 - Real.cos (Real.pi / (2 * 15))) / Real.cos l ^ 2 := by
          rw [lt_div_iff hb]
          nlinarith [nlA_pos]
        have htlt : 1 - (1 - Real.cos (Real.pi / (2 * 15))) / Real.cos l ^ 2 <
            Real.cos (Real.pi / (2 * 15)) := by
          linarith
        have ht1 : 1 - (1 - Real.cos (Real.pi / (2 * 15))) / Real.cos l ^ 2 < 1 := by
          have : 0 < (1 - Real.cos (Real.pi / (2 * 15))) / Real.cos l ^ 2 :=
            div_pos nlA_pos hb
          linarith
        have hmem1 : (1 - (1 - Real.cos (Real.pi / (2 * 15))) / Real.cos l ^ 2) ∈
            Set.Icc (-1 : ℝ) 1 := by
          constructor
          · have := ht
            linarith
          · linarith
        have hmem2 : Real.cos (Real.pi / (2 * 15)) ∈ Set.Icc (-1 : ℝ) 1 :=
          ⟨Real.neg_one_le_cos _, Real.cos_le_one _⟩
        have hstrict := Real.strictAntiOn_arccos hmem1 hmem2 htlt
        have hacv : Real.arccos (Real.cos (Real.pi / (2 * 15))) = Real.pi / (2 * 15) := by
          apply Real.arccos_cos
          · positivity
          · nlinarith [Real.pi_pos]
        rw [hacv] at hstrict
        have hval : 2 * Real.pi / Real.arccos
            (1 - (1 - Real.cos (Real.pi / (2 * 15))) / Real.cos l ^ 2) < 60 := by
          have hpi30 : (0 : ℝ) < Real.pi / (2 * 15) := by positivity
          have h1 := div_lt_div_of_pos_left (by positivity : (0 : ℝ) < 2 * Real.pi)
            hpi30 hstrict
          have h2 : 2 * Real.pi / (Real.pi / (2 * 15)) = 60 := by
            field_simp
            ring
          linarith
        have := Int.floor_lt.mpr (by push_cast; linarith :
          2 * Real.pi / Real.arccos
            (1 - (1 - Real.cos (Real.pi / (2 * 15))) / Real.cos l ^ 2) < ((60 : ℤ) : ℝ))
        omega

/-- The simulator `nl` at 87 degrees (in radians) and beyond returns 1. -/
theorem simNl_eq_one_of_87 (l : ℝ) (h : 87 * Real.pi / 180 ≤ |l|) : simNl l = 1 := by
  have hpi := Real.pi_pos
  have h0 : l ≠ 0 := by
    intro hl
    rw [hl, abs_zero] at h
    nlinarith
  by_cases hhalf : Real.pi / 2 ≤ |l|
  · unfold simNl
    rw [if_neg h0, if_pos hhalf]
  · push_neg at hhalf
    apply simNl_of_neg l h0 (not_le.mpr hhalf)
    have hcos : 0 < Real.cos l := cosrad_pos l hhalf
    have hb : 0 < Real.cos l ^ 2 := by positivity
    have h87pi : |l| ≤ Real.pi := by linarith
    have hcosle : Real.cos l ≤ Real.sin (Real.pi / 60) := by
      rw [← cos87_eq, ← Real.cos_abs]
      exact Real.cos_le_cos_of_nonneg_of_le_pi (by positivity) h87pi h
    have hble : Real.cos l ^ 2 ≤ Real.sin (Real.pi / 60) ^ 2 := by
      nlinarith
    have hA := nlA_eq
    have hs := sin60_pos
    have h2 : (2 : ℝ) ≤ (1 - Real.cos (Real.pi / (2 * 15))) / Real.cos l ^ 2 := by
      rw [le_div_iff hb, hA]
      nlinarith
    linarith

/-- The simulator `nl` is monotonically non-increasing in the absolute
latitude. -/
theorem simNl_anti (x y : ℝ) (hxy : |x| ≤ |y|) : simNl y ≤ simNl x := by
  by_cases hx0 : x = 0
  · have h59 : simNl x = 59 := by
      unfold simNl
      rw [if_pos hx0]
    rw [h59]
    exact simNl_le_59 y
  · have hy0 : y ≠ 0 := by
      intro hy
      rw [hy, abs_zero] at hxy
      exact hx0 (abs_eq_zero.mp (le_antisymm hxy (abs_nonneg x)))
    by_cases hyhalf : Real.pi / 2 ≤ |y|
    · have h1 : simNl y = 1 := by
        unfold simNl
        rw [if_neg hy0, if_pos hyhalf]
      rw [h1]
      exact simNl_ge_one x
    · push_neg at hyhalf
      have hxhalf : |x| < Real.pi / 2 := lt_of_le_of_lt hxy hyhalf
      have hcosy : 0 < Real.cos y := cosrad_pos y hyhalf
      have hcosx : 0 < Real.cos x := cosrad_pos x hxhalf
      have hcos_le : Real.cos y ≤ Real.cos x := by
        rw [← Real.cos_abs x, ← Real.cos_abs y]
        have hypi : |y| ≤ Real.pi := by
          have := Real.pi_pos
          linarith
        exact Real.cos_le_cos_of_nonneg_of_le_pi (abs_nonneg x) hypi hxy
      have hbx : 0 < Real.cos x ^ 2 := by positivity
      have hby : 0 < Real.cos y ^ 2 := by positivity
      have hb_le : Real.cos y ^ 2 ≤ Real.cos x ^ 2 := by nlinarith
      have hdiv : (1 - Real.cos (Real.pi / (2 * 15))) / Real.cos x ^ 2 ≤
          (1 - Real.cos (Real.pi / (2 * 15))) / Real.cos y ^ 2 :=
        div_le_div_of_nonneg_left nlA_pos.le hby hb_le
      by_cases hty : 1 - (1 - Real.cos (Real.pi / (2 * 15))) / Real.cos y ^ 2 ≤ 0
      · rw [simNl_of_neg y hy0 (not_le.mpr hyhalf) hty]
        exact simNl_ge_one x
      · have htx : ¬ 1 - (1 - Real.cos (Real.pi / (2 * 15))) / Real.cos x ^ 2 ≤ 0 := by
          push_neg at hty ⊢
          linarith
        rw [simNl_of_main y hy0 (not_le.mpr hyhalf) hty,
          simNl_of_main x hx0 (not_le.mpr hxhalf) htx]
        push_neg at hty htx
        have htx1 : 1 - (1 - Real.cos (Real.pi / (2 * 15))) / Real.cos x ^ 2 < 1 := by
          have : 0 < (1 - Real.cos (Real.pi / (2 * 15))) / Real.cos x ^ 2 :=
            div_pos nlA_pos hbx
          linarith
        have hT : 1 - (1 - Real.cos (Real.pi / (2 * 15))) / Real.cos y ^ 2 ≤
            1 - (1 - Real.cos (Real.pi / (2 * 15))) / Real.cos x ^ 2 := by
          linarith
        have hacx : 0 < Real.arccos
            (1 - (1 - Real.cos (Real.pi / (2 * 15))) / Real.cos x ^ 2) :=
          Real.arccos_pos.mpr htx1
        have hvle : 2 * Real.pi / Real.arccos
              (1 - (1 - Real.cos (Real.pi / (2 * 15))) / Real.cos y ^ 2) ≤
            2 * Real.pi / Real.arccos
              (1 - (1 - Real.cos (Real.pi / (2 * 15))) / Real.cos x ^ 2) :=
          div_le_div_of_nonneg_left (by positivity) hacx (arccos_anti hT)
        exact Int.floor_le_floor hvle

